import Mathlib

/-!
Verification development for the robomesh workflow system.

Two subsystems are embedded here, directly from the sources:

* the trigger manager (trigger registry, idle tracker and check-and-fire
  scheduler cycle), embedded as a pure state-passing model; the injectable
  clock becomes an explicit instant argument, the async fire callback is
  modelled by its observable success/failure behaviour per trigger id, and
  Math.random in the idle-trigger selection becomes an explicit pick argument;

* the graph executor (execute route), embedded with the subprocess runner
  abstracted as an oracle from command and working directory to output and
  exit code, and the breadth-first traversal written with an explicit fuel
  bound (every actual run of the source loop is the run at any sufficiently
  large fuel; the properties proved below hold for every fuel).

JavaScript data idioms are modelled explicitly: insertion-ordered maps as
association lists with in-place update, string falsiness, and the exact
regular-expression scan used for template substitution.  Instants are
integers (milliseconds for the trigger manager, seconds for the cron model);
the one floating-point division in the source (milliseconds to minutes) is
modelled by exact rational arithmetic.  Wall-clock result timestamps
(startTime, endTime) carry no logic and are omitted from the result record.
-/

namespace Robomesh

/-- JavaScript whitespace class (the ASCII part), as matched by backslash-s
in the source regular expressions and by String.prototype.trim. -/
def jsWs (c : Char) : Bool :=
  c = ' ' || c = '\t' || c = '\n' || c = '\r' || c = '\x0b' || c = '\x0c'

/-- JavaScript String.prototype.trim on a character list. -/
def trimChars (l : List Char) : List Char :=
  ((l.dropWhile jsWs).reverse.dropWhile jsWs).reverse

/-- JavaScript String.prototype.trim. -/
def jsTrim (s : String) : String := ⟨trimChars s.data⟩

/-- JavaScript truthiness of an optional string: undefined and the empty
string are falsy. -/
def strTruthy : Option String → Bool
  | none => false
  | some s => s ≠ ""

/-- JavaScript a-or-else-b on an optional string left operand. -/
def jsOr (a : Option String) (b : String) : String :=
  match a with
  | some s => if s = "" then b else s
  | none => b

/-! JavaScript Map, modelled as an insertion-ordered association list.
Map.set keeps the original insertion position of an existing key and
replaces its value; a new key is appended. -/

/-- Association-list model of a JavaScript Map with string keys. -/
abbrev JsMap (α : Type) := List (String × α)

/-- Map.get. -/
def mapGet {α : Type} (m : JsMap α) (k : String) : Option α :=
  (m.find? (fun e => e.1 == k)).map (·.2)

/-- Map.set: replace in place if the key is present, append otherwise. -/
def mapSet {α : Type} (m : JsMap α) (k : String) (v : α) : JsMap α :=
  if m.any (fun e => e.1 == k) then
    m.map (fun e => if e.1 == k then (k, v) else e)
  else m ++ [(k, v)]

/-- Map.delete for every entry with the given key. -/
def mapDelete {α : Type} (m : JsMap α) (k : String) : JsMap α :=
  m.filter (fun e => e.1 != k)

/-- Map.values in insertion order. -/
def mapValues {α : Type} (m : JsMap α) : List α := m.map (·.2)

/-- Map.keys in insertion order. -/
def mapKeys {α : Type} (m : JsMap α) : List String := m.map (·.1)

/-! Trigger data model, from the trigger manager source. -/

/-- Trigger configuration: a type tag (cron or idle) with the fields the
source reads from it. -/
structure TriggerConfig where
  type : String
  cron : Option String := none
  idleMinutes : Option Nat := none
deriving Repr, DecidableEq

/-- A registered trigger record. -/
structure RegisteredTrigger where
  id : String
  workspace : String
  workflowPath : String
  nodeId : String
  label : String
  config : TriggerConfig
  enabled : Bool
  nextRun : Option Int := none
  lastRun : Option Int := none
deriving Repr, DecidableEq

/-- In-memory state of the TriggerManager: the trigger map and the idle
tracker.  The clock is passed explicitly; disk persistence is input/output
and outside this model. -/
structure TMState where
  triggers : JsMap RegisteredTrigger := []
  idleSince : Option Int := none
deriving Repr, DecidableEq

/-- Abstract next-occurrence computation of the external cron-parser
library as used through getNextRunTime: some next instant, or none when
the library throws (invalid expression). -/
abbrev CronNext := String → Int → Option Int

/-- Key of a trigger: workspace, workflow path and node id joined by colons. -/
def getTriggerKey (workspace workflowPath nodeId : String) : String :=
  workspace ++ ":" ++ workflowPath ++ ":" ++ nodeId

/-- TriggerManager.register: computes nextRun for cron configurations (the
library throwing yields no nextRun), stores the record enabled with lastRun
carried over from any existing record under the same key, and returns it. -/
def register (cronNext : CronNext) (st : TMState) (now : Int)
    (workspace workflowPath nodeId label : String) (config : TriggerConfig) :
    TMState × RegisteredTrigger :=
  let id := getTriggerKey workspace workflowPath nodeId
  let nextRun : Option Int :=
    if config.type == "cron" && strTruthy config.cron then
      cronNext (config.cron.getD "") now
    else none
  let trigger : RegisteredTrigger :=
    { id := id, workspace := workspace, workflowPath := workflowPath,
      nodeId := nodeId, label := label, config := config, enabled := true,
      nextRun := nextRun,
      lastRun := (mapGet st.triggers id).bind (·.lastRun) }
  ({ st with triggers := mapSet st.triggers id trigger }, trigger)

/-- TriggerManager.unregister. -/
def unregister (st : TMState) (workspace workflowPath nodeId : String) :
    TMState × Bool :=
  let id := getTriggerKey workspace workflowPath nodeId
  if (mapGet st.triggers id).isSome then
    ({ st with triggers := mapDelete st.triggers id }, true)
  else (st, false)

/-- TriggerManager.get. -/
def getTrigger (st : TMState) (workspace workflowPath nodeId : String) :
    Option RegisteredTrigger :=
  mapGet st.triggers (getTriggerKey workspace workflowPath nodeId)

/-- TriggerManager.getAll. -/
def getAll (st : TMState) : List RegisteredTrigger := mapValues st.triggers

/-- TriggerManager.getDueTriggers: enabled cron triggers whose nextRun is
set and not later than now. -/
def getDueTriggers (st : TMState) (now : Int) : List RegisteredTrigger :=
  (getAll st).filter (fun tr =>
    tr.enabled && tr.config.type == "cron" &&
      match tr.nextRun with
      | none => false
      | some t => t ≤ now)

/-- TriggerManager.setIdle: record the instant on the busy-to-idle edge,
clear it on the idle-to-busy edge, otherwise do nothing. -/
def setIdle (st : TMState) (now : Int) (idle : Bool) : TMState :=
  if idle && st.idleSince.isNone then { st with idleSince := some now }
  else if !idle && st.idleSince.isSome then { st with idleSince := none }
  else st

/-- TriggerManager.isIdle. -/
def isIdle (st : TMState) : Bool := st.idleSince.isSome

/-- TriggerManager.getIdleDuration in milliseconds; zero when not idle. -/
def getIdleDuration (st : TMState) (now : Int) : Int :=
  match st.idleSince with
  | none => 0
  | some t => now - t

/-- TriggerManager.getDueIdleTriggers: empty when not idle, otherwise the
enabled idle triggers whose required minutes do not exceed the elapsed idle
minutes.  The source compares requiredMinutes against idleMs divided by
60000 as a JavaScript number; the exact cross-multiplied integer comparison
used here is equivalent (claim C6 below states the division form). -/
def getDueIdleTriggers (st : TMState) (now : Int) : List RegisteredTrigger :=
  match st.idleSince with
  | none => []
  | some since =>
    let idleMs : Int := now - since
    (getAll st).filter (fun tr =>
      tr.enabled && tr.config.type == "idle" &&
        decide ((tr.config.idleMinutes.getD 0 : Int) * 60000 ≤ idleMs))

/-- TriggerManager.selectRandom: Math.floor(Math.random() times length)
becomes an explicit pick reduced modulo the length. -/
def selectRandom (triggers : List RegisteredTrigger) (pick : Nat) :
    Option RegisteredTrigger :=
  if triggers.isEmpty then none
  else triggers.get? (pick % triggers.length)

/-- TriggerManager.setEnabled: false when the key is absent; otherwise flips
only the enabled flag of the stored record. -/
def setEnabled (st : TMState) (workspace workflowPath nodeId : String)
    (enabled : Bool) : TMState × Bool :=
  let id := getTriggerKey workspace workflowPath nodeId
  match mapGet st.triggers id with
  | none => (st, false)
  | some tr =>
    ({ st with triggers := mapSet st.triggers id { tr with enabled := enabled } },
     true)

/-- TriggerManager.markFired on one record: set lastRun to now and, for a
cron configuration, recompute nextRun (the library throwing clears it). -/
def markFiredTrigger (cronNext : CronNext) (now : Int)
    (tr : RegisteredTrigger) : RegisteredTrigger :=
  let tr1 := { tr with lastRun := some now }
  if tr1.config.type == "cron" && strTruthy tr1.config.cron then
    { tr1 with nextRun := cronNext (tr1.config.cron.getD "") now }
  else tr1

/-- The observable behaviour of the registered async fire callback: for a
trigger id, whether the invocation returns normally (true) or throws
(false). -/
abbrev FireCallback := String → Bool

/-- Result of one checkAndFire cycle, with the list of trigger ids the
callback was invoked on (in invocation order) recorded for observability. -/
structure CheckAndFireResult where
  state : TMState
  fired : List RegisteredTrigger
  calls : List String
deriving Repr, DecidableEq

/-- The per-trigger firing loop inside checkAndFire: with a callback, invoke
it and on normal return mark the trigger fired and collect it (an exception
is caught and skips both); with no callback, mark and collect directly. -/
def fireAll (cronNext : CronNext) (cb : Option FireCallback) (now : Int) :
    List RegisteredTrigger → TMState →
    TMState × List RegisteredTrigger × List String
  | [], st => (st, [], [])
  | tr :: rest, st =>
    match cb with
    | some f =>
      if f tr.id then
        let tr1 := markFiredTrigger cronNext now tr
        let st1 := { st with triggers := mapSet st.triggers tr.id tr1 }
        let out := fireAll cronNext cb now rest st1
        (out.1, tr1 :: out.2.1, tr.id :: out.2.2)
      else
        let out := fireAll cronNext cb now rest st
        (out.1, out.2.1, tr.id :: out.2.2)
    | none =>
      let tr1 := markFiredTrigger cronNext now tr
      let st1 := { st with triggers := mapSet st.triggers tr.id tr1 }
      let out := fireAll cronNext cb now rest st1
      (out.1, tr1 :: out.2.1, out.2.2)

/-- TriggerManager.checkAndFire: fire every due cron trigger, then select at
most one due idle trigger and fire it.  Saving to disk is input/output and
outside this model; it does not change the trigger map. -/
def checkAndFire (cronNext : CronNext) (cb : Option FireCallback)
    (pick : Nat) (st : TMState) (now : Int) : CheckAndFireResult :=
  let due := getDueTriggers st now
  let afterCron := fireAll cronNext cb now due st
  let st1 := afterCron.1
  let dueIdle := getDueIdleTriggers st1 now
  let afterIdle :
      TMState × List RegisteredTrigger × List String :=
    match selectRandom dueIdle pick with
    | none => (st1, [], [])
    | some sel =>
      match cb with
      | some f =>
        if f sel.id then
          let sel1 := markFiredTrigger cronNext now sel
          ({ st1 with triggers := mapSet st1.triggers sel.id sel1 },
           [sel1], [sel.id])
        else (st1, [], [sel.id])
      | none =>
        let sel1 := markFiredTrigger cronNext now sel
        ({ st1 with triggers := mapSet st1.triggers sel.id sel1 },
         [sel1], [])
  { state := afterIdle.1,
    fired := afterCron.2.1 ++ afterIdle.2.1,
    calls := afterCron.2.2 ++ afterIdle.2.2 }

/-! Cron evaluation.  The cron-parser library that getNextRunTime wraps is
an external dependency and not part of the repository sources, so it is
modelled here from the specification. -/

/-- One field of a cron expression: a wildcard, a step, or a value. -/
inductive CronField where
  | all : CronField
  | step : Nat → CronField
  | val : Nat → CronField
deriving Repr, DecidableEq

/-- Parse a nonempty all-digit string. -/
def parseNatStr (s : String) : Option Nat :=
  if !s.data.isEmpty && s.data.all (·.isDigit) then
    some (s.data.foldl (fun a c => a * 10 + (c.toNat - 48)) 0)
  else none

/-- Parse one cron field with its value range. -/
def parseCronField (lo hi : Nat) (s : String) : Option CronField :=
  if s = "*" then some .all
  else if s.startsWith "*/" then
    match parseNatStr (s.drop 2) with
    | some n => if 1 ≤ n then some (.step n) else none
    | none => none
  else
    match parseNatStr s with
    | some n => if lo ≤ n && n ≤ hi then some (.val n) else none
    | none => none

/-- Tokenizer for whitespace-separated fields: the accumulator holds the
current word reversed. -/
def splitWsAux : List Char → List Char → List (List Char)
  | [], acc => if acc.isEmpty then [] else [acc.reverse]
  | c :: cs, acc =>
    if jsWs c then
      if acc.isEmpty then splitWsAux cs []
      else acc.reverse :: splitWsAux cs []
    else splitWsAux cs (c :: acc)

/-- Split a character list on runs of whitespace. -/
def splitWsChars (l : List Char) : List (List Char) := splitWsAux l []

/-- A parsed cron expression: second, minute, hour, day of month, month and
day of week fields. -/
structure CronExpr where
  sec : CronField
  minute : CronField
  hour : CronField
  dom : CronField
  month : CronField
  dow : CronField
deriving Repr, DecidableEq

/-- Modelled from the spec: syntax validation of the cron-parser library
(the library itself is not in the repository sources).  Accepts five fields
(seconds defaulting to zero) or six, each a wildcard, a step, or an
in-range number; anything else fails to parse. -/
def parseCron (s : String) : Option CronExpr :=
  let fields := (splitWsChars s.data).map (fun l => String.mk l)
  match fields with
  | [mi, h, d, mo, w] => do
    let mi ← parseCronField 0 59 mi
    let h ← parseCronField 0 23 h
    let d ← parseCronField 1 31 d
    let mo ← parseCronField 1 12 mo
    let w ← parseCronField 0 7 w
    pure { sec := .val 0, minute := mi, hour := h, dom := d, month := mo, dow := w }
  | [se, mi, h, d, mo, w] => do
    let se ← parseCronField 0 59 se
    let mi ← parseCronField 0 59 mi
    let h ← parseCronField 0 23 h
    let d ← parseCronField 1 31 d
    let mo ← parseCronField 1 12 mo
    let w ← parseCronField 0 7 w
    pure { sec := se, minute := mi, hour := h, dom := d, month := mo, dow := w }
  | _ => none

/-- Proleptic Gregorian civil date (year, month, day) from a count of days
since 1970-01-01. -/
def civilFromDays (z : Nat) : Nat × Nat × Nat :=
  let z1 := z + 719468
  let era := z1 / 146097
  let doe := z1 % 146097
  let yoe := (doe - doe / 1460 + doe / 36524 - doe / 146096) / 365
  let y := yoe + era * 400
  let doy := doe - (365 * yoe + yoe / 4 - yoe / 100)
  let mp := (5 * doy + 2) / 153
  let d := doy - (153 * mp + 2) / 5 + 1
  let m := if mp < 10 then mp + 3 else mp - 9
  (if m ≤ 2 then y + 1 else y, m, d)

/-- Does a value satisfy one cron field. -/
def cronFieldMatches : CronField → Nat → Bool
  | .all, _ => true
  | .step n, v => n ≠ 0 && v % n == 0
  | .val n, v => v == n

/-- Modelled from the spec: whether an instant (in seconds, UTC) matches a
parsed cron expression.  Day-of-week 7 is accepted as Sunday. -/
def cronMatches (e : CronExpr) (t : Int) : Bool :=
  let s := t.toNat
  let days := s / 86400
  let ymd := civilFromDays days
  let dowv := (days + 4) % 7
  cronFieldMatches e.sec (s % 60) &&
  cronFieldMatches e.minute (s / 60 % 60) &&
  cronFieldMatches e.hour (s / 3600 % 24) &&
  cronFieldMatches e.dom ymd.2.2 &&
  cronFieldMatches e.month ymd.2.1 &&
  (cronFieldMatches e.dow dowv || (e.dow == .val 7 && dowv == 0))

/-- Modelled from the spec: the next-fire-after-now search of the library.
Scans the instants strictly after the base, up to a search bound. -/
def searchNext (m : Int → Bool) : Int → Nat → Option Int
  | _, 0 => none
  | t, fuel + 1 => if m (t + 1) then some (t + 1) else searchNext m (t + 1) fuel

/-- TriggerManager.getNextRunTime over the modelled library: parse failure
becomes the invalid-expression error the source throws; otherwise the next
occurrence strictly after the base instant. -/
def getNextRunTime (cronExpr : String) (base : Int) (fuel : Nat) :
    Except String Int :=
  match parseCron cronExpr with
  | none => .error ("Invalid cron expression \"" ++ cronExpr ++ "\"")
  | some e =>
    match searchNext (cronMatches e) base fuel with
    | some t => .ok t
    | none => .error "no matching occurrence within the search bound"

/-- TriggerManager.isValidCron: empty or whitespace-only input is invalid,
otherwise validity is parse success. -/
def isValidCron (cronExpr : String) : Bool :=
  if cronExpr = "" || jsTrim cronExpr = "" then false
  else (parseCron cronExpr).isSome

/-! Graph executor, from the execute route source. -/

/-- A workflow node, with the data-bag fields the executor reads. -/
structure WorkflowNode where
  id : String
  type : String
  label : Option String := none
  nodeType : Option String := none
  commands : Option (List String) := none
  prompt : Option String := none
  path : Option String := none
deriving Repr, DecidableEq

/-- A workflow edge. -/
structure WorkflowEdge where
  id : String
  source : String
  target : String
deriving Repr, DecidableEq

/-- buildAdjacencyMap: source node id to its targets, in edge order. -/
def buildAdjacencyMap (edges : List WorkflowEdge) : JsMap (List String) :=
  edges.foldl (fun adj e =>
    mapSet adj e.source ((mapGet adj e.source).getD [] ++ [e.target])) []

/-- Execution context: outputs produced so far and the label of every node. -/
structure ExecutionContext where
  outputs : JsMap String
  nodeLabels : JsMap String
deriving Repr, DecidableEq

/-- The character class of a template identifier: letters, digits,
underscore and hyphen. -/
def isIdentChar (c : Char) : Bool :=
  c.isAlpha || c.isDigit || c = '_' || c = '-'

/-- Whitespace-run collapse: the flag records whether the previous
character was whitespace (so a run emits one underscore). -/
def collapseWsAux : List Char → Bool → List Char
  | [], _ => []
  | c :: cs, prevWs =>
    if jsWs c then
      if prevWs then collapseWsAux cs true
      else '_' :: collapseWsAux cs true
    else c :: collapseWsAux cs false

/-- Label normalization step: each whitespace run replaced by a single
underscore. -/
def collapseWsToUnderscore (l : List Char) : List Char := collapseWsAux l false

/-- JavaScript toLowerCase (ASCII range). -/
def lowerStr (s : String) : String := ⟨s.data.map Char.toLower⟩

/-- The normalized form of a node label used for template lookups. -/
def normalizeLabel (label : String) : String :=
  ⟨collapseWsToUnderscore (lowerStr label).data⟩

/-- The label-lookup loop of the template replacement callback: the first
entry (in insertion order) whose normalized label matches the lowercased
identifier, or whose label equals the identifier verbatim, and that has a
produced output. -/
def lookupLabelOutput (outputs : JsMap String) (identifier : String) :
    List (String × String) → Option String
  | [] => none
  | (nodeId, label) :: rest =>
    if (normalizeLabel label == lowerStr identifier || label == identifier)
        && (mapGet outputs nodeId).isSome then
      mapGet outputs nodeId
    else lookupLabelOutput outputs identifier rest

/-- The replacement applied to one matched template reference: node id
lookup first, then label lookup, otherwise the matched text verbatim. -/
def resolveTemplateRef (ctx : ExecutionContext) (identifier matched : String) :
    String :=
  match mapGet ctx.outputs identifier with
  | some v => v
  | none =>
    match lookupLabelOutput ctx.outputs identifier ctx.nodeLabels with
    | some v => v
    | none => matched

/-- If the pattern is a prefix of the list, the remainder after it. -/
def dropExpected (pat : List Char) (l : List Char) : Option (List Char) :=
  if pat.isPrefixOf l then some (l.drop pat.length) else none

/-- Match the template regular expression (open braces, optional
whitespace, an identifier, dot output, optional whitespace, close braces)
at the head of the list; on success return the identifier, the matched
text, and the remainder. -/
def matchTemplateAt (l : List Char) : Option (String × String × List Char) :=
  (dropExpected ['{', '{'] l).bind (fun l1 =>
    let l2 := l1.dropWhile jsWs
    let ident := l2.takeWhile isIdentChar
    if ident.isEmpty then none
    else
      (dropExpected ('.' :: "output".data) (l2.dropWhile isIdentChar)).bind (fun l4 =>
        (dropExpected ['}', '}'] (l4.dropWhile jsWs)).bind (fun l6 =>
          some (⟨ident⟩, ⟨l.take (l.length - l6.length)⟩, l6))))

/-- The global regular-expression scan of replaceTemplates: at each
position, a full template match is replaced and scanning resumes after it;
otherwise the character is kept.  The fuel counts scan steps; every step
consumes at least one character (matchTemplateAt_rest_lt), so fuel equal to
the input length never runs out. -/
def scanTemplates (ctx : ExecutionContext) : Nat → List Char → List Char
  | 0, l => l
  | _ + 1, [] => []
  | fuel + 1, c :: cs =>
    match matchTemplateAt (c :: cs) with
    | some idm =>
      (resolveTemplateRef ctx idm.1 idm.2.1).data ++ scanTemplates ctx fuel idm.2.2
    | none => c :: scanTemplates ctx fuel cs

/-- replaceTemplates from the execute route. -/
def replaceTemplates (text : String) (ctx : ExecutionContext) : String :=
  ⟨scanTemplates ctx text.data.length text.data⟩

/-- processNodeTemplates: replace template references in the commands
array, the prompt and the path (a present empty prompt or path is falsy in
the source and left untouched; replacement on the empty string is the empty
string, so this matters only for fidelity). -/
def processNodeTemplates (node : WorkflowNode) (ctx : ExecutionContext) :
    WorkflowNode :=
  { node with
    commands := node.commands.map (·.map (fun cmd => replaceTemplates cmd ctx)),
    prompt := node.prompt.map (fun p => if p = "" then p else replaceTemplates p ctx),
    path := node.path.map (fun p => if p = "" then p else replaceTemplates p ctx) }

/-- findTriggerNodes: explicit trigger-typed nodes, or else the nodes with
no incoming edge. -/
def findTriggerNodes (nodes : List WorkflowNode) (edges : List WorkflowEdge) :
    List String :=
  let hasIncoming := edges.map (·.target)
  let triggers := nodes.filter (fun n =>
    n.nodeType == some "trigger" || n.type == "trigger")
  if !triggers.isEmpty then triggers.map (·.id)
  else (nodes.filter (fun n => !hasIncoming.contains n.id)).map (·.id)

/-- Node execution status. -/
inductive NodeStatus where
  | pending
  | running
  | completed
  | failed
deriving Repr, DecidableEq

/-- Per-node execution result.  The wall-clock startTime and endTime fields
of the source carry no logic and are omitted. -/
structure NodeResult where
  nodeId : String
  status : NodeStatus
  output : Option String := none
  error : Option String := none
  exitCode : Option Int := none
deriving Repr, DecidableEq

/-- Outcome of one subprocess run in executeShellCommand: the trimmed
concatenation of stdout and stderr, and the exit code (a spawn error
surfaces as output text with exit code one). -/
structure ShellOutcome where
  output : String
  exitCode : Int
deriving Repr, DecidableEq

/-- The subprocess runner, abstracted as an oracle from command and working
directory to its outcome. -/
abbrev ShellExec := String → String → ShellOutcome

/-- The command loop of executeNode for shell nodes: blank commands are
skipped, each output is recorded prefixed with the echoed command, and the
first nonzero exit code fails the node with the output accumulated so
far. -/
def runShellCommands (exec : ShellExec) (nodeId cwd : String) :
    List String → List String → Int → NodeResult
  | [], outputs, lastExit =>
    { nodeId := nodeId, status := .completed,
      output := some (String.intercalate "\n\n" outputs),
      exitCode := some lastExit }
  | cmd :: rest, outputs, lastExit =>
    if jsTrim cmd = "" then runShellCommands exec nodeId cwd rest outputs lastExit
    else
      let r := exec cmd cwd
      let outputs1 := outputs ++ ["$ " ++ cmd ++ "\n" ++ r.output]
      if r.exitCode ≠ 0 then
        { nodeId := nodeId, status := .failed,
          output := some (String.intercalate "\n\n" outputs1),
          exitCode := some r.exitCode,
          error := some ("Command failed with exit code " ++ toString r.exitCode) }
      else runShellCommands exec nodeId cwd rest outputs1 r.exitCode

/-- executeNode: dispatch on the effective node type (data nodeType
falling back to the node type); shell nodes run their commands, trigger and
workdir nodes complete immediately, anything else completes with a
placeholder. -/
def executeNode (exec : ShellExec) (node : WorkflowNode)
    (rootDirectory processCwd : String) : NodeResult :=
  let nodeType := jsOr node.nodeType node.type
  let cwd := jsOr node.path (jsOr (some rootDirectory) processCwd)
  if nodeType = "shell" then
    let commands := node.commands.getD []
    if commands.isEmpty then
      { nodeId := node.id, status := .completed,
        output := some "(no commands to execute)" }
    else runShellCommands exec node.id cwd commands [] 0
  else if nodeType = "trigger" then
    { nodeId := node.id, status := .completed, output := some "Trigger activated" }
  else if nodeType = "workdir" then
    { nodeId := node.id, status := .completed,
      output := some ("Working directory: " ++ jsOr node.path "(not set)") }
  else
    { nodeId := node.id, status := .completed,
      output := some ("Node type \x27" ++ nodeType ++ "\x27 execution not yet implemented") }

/-- Split a character list at newline characters, JavaScript split
semantics: the empty list yields one empty line. -/
def splitOnNl : List Char → List (List Char)
  | [] => [[]]
  | c :: cs =>
    if c = '\n' then [] :: splitOnNl cs
    else
      match splitOnNl cs with
      | [] => [[c]]
      | w :: ws => (c :: w) :: ws

/-- Does a line echo a command (dollar sign and space). -/
def isEchoLine (l : List Char) : Bool :=
  match l with
  | '$' :: ' ' :: _ => true
  | _ => false

/-- The output stored into the execution context for downstream templates:
command-echo lines removed, then trimmed. -/
def cleanOutput (s : String) : String :=
  jsTrim (String.intercalate "\n"
    (((splitOnNl s.data).filter (fun l => !isEchoLine l)).map (fun l => String.mk l)))

/-- Aggregate outcome of the traversal loop. -/
structure LoopOutcome where
  results : List NodeResult
  order : List String
  success : Bool
  outputs : JsMap String
deriving Repr, DecidableEq

/-- The breadth-first execution loop of the execute route, with an explicit
fuel bound on the number of iterations (the source loop terminates because
every iteration either discards a queued id or visits a new one; each run
of it is this function at any sufficiently large fuel).  A dequeued id that
was already visited, or that names no node, is skipped; otherwise the node
executes after template processing, its cleaned output is recorded when
truthy, a failure stops the traversal with overall success false, and
otherwise the unvisited successors are enqueued. -/
def runLoop (exec : ShellExec) (nodeMap : JsMap WorkflowNode)
    (adjacency : JsMap (List String)) (labels : JsMap String)
    (rootDirectory processCwd : String) :
    Nat → List String → List String → JsMap String → LoopOutcome
  | 0, _, _, outputs => { results := [], order := [], success := true, outputs := outputs }
  | _ + 1, [], _, outputs => { results := [], order := [], success := true, outputs := outputs }
  | fuel + 1, nodeId :: rest, visited, outputs =>
    if visited.contains nodeId then
      runLoop exec nodeMap adjacency labels rootDirectory processCwd fuel rest visited outputs
    else
      let visited1 := nodeId :: visited
      match mapGet nodeMap nodeId with
      | none =>
        runLoop exec nodeMap adjacency labels rootDirectory processCwd fuel rest visited1 outputs
      | some node =>
        let ctx : ExecutionContext := { outputs := outputs, nodeLabels := labels }
        let processed := processNodeTemplates node ctx
        let result := executeNode exec processed rootDirectory processCwd
        let outputs1 :=
          match result.output with
          | some o => if o = "" then outputs else mapSet outputs nodeId (cleanOutput o)
          | none => outputs
        if result.status = .failed then
          { results := [result], order := [nodeId], success := false, outputs := outputs1 }
        else
          let pushes := ((mapGet adjacency nodeId).getD []).filter
            (fun t => !visited1.contains t)
          let sub := runLoop exec nodeMap adjacency labels rootDirectory processCwd
            fuel (rest ++ pushes) visited1 outputs1
          { sub with results := result :: sub.results, order := nodeId :: sub.order }

/-- The response of the execute route. -/
structure ExecuteResponse where
  success : Bool
  results : List NodeResult
  executionOrder : List String
deriving Repr, DecidableEq

/-- Node map: node id to node, later duplicate ids overwriting earlier. -/
def buildNodeMap (nodes : List WorkflowNode) : JsMap WorkflowNode :=
  nodes.foldl (fun m n => mapSet m n.id n) []

/-- Label map: node id to its label, falling back to the id. -/
def buildLabels (nodes : List WorkflowNode) : JsMap String :=
  nodes.foldl (fun m n => mapSet m n.id (jsOr n.label n.id)) []

/-- Start-node determination of the execute route: a truthy explicit start
node id must name a node (else a bad request); otherwise the trigger nodes,
with an empty start set a bad request. -/
def startNodesOf (nodes : List WorkflowNode) (edges : List WorkflowEdge)
    (startNodeId : Option String) : Option (List String) :=
  if strTruthy startNodeId then
    if (mapGet (buildNodeMap nodes) (startNodeId.getD "")).isSome then
      some [startNodeId.getD ""]
    else none
  else
    let ts := findTriggerNodes nodes edges
    if ts.isEmpty then none else some ts

/-- The execute route handler on a valid request body: none models the
bad-request responses (unknown explicit start node, or no start node
found). -/
def executeWorkflow (exec : ShellExec) (nodes : List WorkflowNode)
    (edges : List WorkflowEdge) (rootDirectory : Option String)
    (processCwd : String) (startNodeId : Option String) (fuel : Nat) :
    Option ExecuteResponse :=
  match startNodesOf nodes edges startNodeId with
  | none => none
  | some startNodes =>
    let out := runLoop exec (buildNodeMap nodes) (buildAdjacencyMap edges)
      (buildLabels nodes) (jsOr rootDirectory processCwd) processCwd
      fuel startNodes [] []
    some { success := out.success, results := out.results,
           executionOrder := out.order }

/-! Concrete fixtures used to instantiate the theorems below. -/

/-- A cron computation that always finds a next occurrence. -/
def wCronNext : CronNext := fun _ _ => some 99

/-- A registered cron trigger that is due at instant ten. -/
def wTrC1 : RegisteredTrigger :=
  { id := "w:p:c1", workspace := "w", workflowPath := "p", nodeId := "c1",
    label := "C1", config := { type := "cron", cron := some "e" },
    enabled := true, nextRun := some 5 }

/-- A second registered cron trigger that is due at instant ten. -/
def wTrC2 : RegisteredTrigger :=
  { id := "w:p:c2", workspace := "w", workflowPath := "p", nodeId := "c2",
    label := "C2", config := { type := "cron", cron := some "e" },
    enabled := true, nextRun := some 6 }

/-- A registered idle trigger with a zero-minute threshold. -/
def wTrI1 : RegisteredTrigger :=
  { id := "w:p:i1", workspace := "w", workflowPath := "p", nodeId := "i1",
    label := "I1", config := { type := "idle", idleMinutes := some 0 },
    enabled := true }

/-- A registry state with two due cron triggers and one due idle trigger,
idle since instant zero. -/
def wSt : TMState :=
  { triggers := [("w:p:c1", wTrC1), ("w:p:c2", wTrC2), ("w:p:i1", wTrI1)],
    idleSince := some 0 }

/-- A callback that throws exactly for the first cron trigger. -/
def wCb : FireCallback := fun i => !(i == "w:p:c1")

/-- A shell oracle under which the command boom fails with exit code one
and every other command succeeds. -/
def exExec : ShellExec := fun cmd _ =>
  if cmd = "boom" then { output := "bad", exitCode := 1 }
  else { output := "ok", exitCode := 0 }

/-- A three-node workflow whose middle shell node fails under exExec. -/
def exNodes : List WorkflowNode :=
  [ { id := "t", type := "trigger" },
    { id := "a", type := "shell", commands := some ["boom"] },
    { id := "b", type := "shell", commands := some ["echo hi"] } ]

/-- Edges for the three-node workflow: t to a to b. -/
def exEdges : List WorkflowEdge :=
  [ { id := "e1", source := "t", target := "a" },
    { id := "e2", source := "a", target := "b" } ]

/-- A two-node shell workflow: the first node, whose single command is
plain text. -/
def c8NodeA : WorkflowNode := { id := "nodeA", type := "shell", commands := some ["ca"] }

/-- The second node, whose single command is one template reference to the
first node's output. -/
def c8NodeB : WorkflowNode :=
  { id := "nodeB", type := "shell", commands := some ["\x7b\x7b nodeA.output \x7d\x7d"] }

/-- Node list of the two-node template workflow. -/
def c8Nodes : List WorkflowNode := [c8NodeA, c8NodeB]

/-- Its single edge from the first node to the second. -/
def c8Edges : List WorkflowEdge := [{ id := "e1", source := "nodeA", target := "nodeB" }]

/-- The second node as it looks once its template is substituted with a
given command text. -/
def c8SubNode (cmd : String) : WorkflowNode :=
  { id := "nodeB", type := "shell", commands := some [cmd] }

/-- The first node's expected result when its command succeeds with the
given output. -/
def c8ResA (oA : String) : NodeResult :=
  { nodeId := "nodeA", status := .completed, output := some ("$ ca\n" ++ oA),
    exitCode := some 0 }

/-- Lengths never grow under dropWhile. -/
theorem length_dropWhile_le (p : Char → Bool) (l : List Char) :
    (l.dropWhile p).length ≤ l.length :=
  (List.dropWhile_sublist _).length_le

/-- Length accounting for dropExpected. -/
theorem dropExpected_eq_some {pat l r : List Char}
    (h : dropExpected pat l = some r) :
    pat.length ≤ l.length ∧ r.length = l.length - pat.length := by
  unfold dropExpected at h
  split at h
  next hp =>
    cases h
    exact ⟨(List.isPrefixOf_iff_prefix.mp hp).length_le, by simp⟩
  · cases h

/-- The matcher consumes at least the two opening braces. -/
theorem matchTemplateAt_rest_lt {l : List Char} {idm : String × String × List Char}
    (h : matchTemplateAt l = some idm) : idm.2.2.length < l.length := by
  unfold matchTemplateAt at h
  rw [Option.bind_eq_some] at h
  obtain ⟨l1, h1, h⟩ := h
  obtain ⟨h1le, h1len⟩ := dropExpected_eq_some h1
  simp only at h
  split at h
  · cases h
  rw [Option.bind_eq_some] at h
  obtain ⟨l4, h4, h⟩ := h
  obtain ⟨h4le, h4len⟩ := dropExpected_eq_some h4
  rw [Option.bind_eq_some] at h
  obtain ⟨l6, h6, h⟩ := h
  obtain ⟨h6le, h6len⟩ := dropExpected_eq_some h6
  cases h
  have d1 := length_dropWhile_le jsWs l1
  have d2 := length_dropWhile_le isIdentChar (l1.dropWhile jsWs)
  have d3 := length_dropWhile_le jsWs l4
  simp only [List.length_cons] at *
  omega

/-! Lemmas about the JavaScript map model. -/

/-- Reading a key just set returns the value just set. -/
theorem mapGet_mapSet_self {α : Type} (m : JsMap α) (k : String) (v : α) :
    mapGet (mapSet m k v) k = some v := by
  induction m with
  | nil => simp [mapSet, mapGet]
  | cons e m ih =>
    by_cases h : e.1 == k
    · simp only [mapSet, List.any_cons, h, Bool.true_or, if_true, List.map_cons]
      simp [mapGet, List.find?_cons, h]
    · simp only [mapSet, List.any_cons, h, Bool.false_or]
      by_cases hm : m.any (fun e => e.1 == k)
      · simp only [hm, if_true, List.map_cons, if_neg (by simpa using h)]
        have := ih
        simp only [mapSet, hm, if_true] at this
        simpa [mapGet, List.find?_cons, h] using this
      · simp only [hm, if_false, List.cons_append]
        have := ih
        simp only [mapSet, hm, if_false] at this
        simpa [mapGet, List.find?_cons, h] using this

/-- Replacing the entries of one key does not change reads of another. -/
theorem mapGet_map_replace {α : Type} (m : JsMap α) {k k' : String} (v : α)
    (h : k' ≠ k) :
    mapGet (m.map (fun e => if e.1 == k then (k, v) else e)) k' = mapGet m k' := by
  have hkk' : ¬(k == k') = true := by
    simp only [beq_iff_eq]
    exact fun hh => h hh.symm
  induction m with
  | nil => rfl
  | cons e m ih =>
    by_cases he : (e.1 == k) = true
    · have he1 : e.1 = k := by simpa using he
      have hek' : ¬(e.1 == k') = true := by rw [he1]; exact hkk'
      simp only [List.map_cons, if_pos he, mapGet, List.find?_cons, hkk', hek']
      exact ih
    · simp only [List.map_cons, if_neg he]
      by_cases hek' : (e.1 == k') = true
      · simp [mapGet, List.find?_cons, hek']
      · simp only [mapGet, List.find?_cons, hek']
        exact ih

/-- Appending an entry for one key does not change reads of another. -/
theorem mapGet_append_single {α : Type} (m : JsMap α) {k k' : String} (v : α)
    (h : k' ≠ k) : mapGet (m ++ [(k, v)]) k' = mapGet m k' := by
  induction m with
  | nil =>
    have hkk' : ¬(k == k') = true := by
      simp only [beq_iff_eq]
      exact fun hh => h hh.symm
    simp [mapGet, List.find?_cons, hkk']
  | cons e m ih =>
    by_cases hek' : e.1 == k'
    · simp [mapGet, List.find?_cons, hek']
    · simp only [List.cons_append, mapGet, List.find?_cons, hek']
      exact ih

/-- Setting one key does not change reads of another. -/
theorem mapGet_mapSet_ne {α : Type} (m : JsMap α) {k k' : String} (v : α)
    (h : k' ≠ k) : mapGet (mapSet m k v) k' = mapGet m k' := by
  unfold mapSet
  split
  · exact mapGet_map_replace m v h
  · exact mapGet_append_single m v h

/-- Every entry of a map after a set is an old entry or the new one. -/
theorem mem_mapSet {α : Type} {m : JsMap α} {k : String} {v : α}
    {e : String × α} (h : e ∈ mapSet m k v) : e ∈ m ∨ e = (k, v) := by
  unfold mapSet at h
  split at h
  · obtain ⟨f, hf, hfe⟩ := List.mem_map.mp h
    by_cases hfk : f.1 == k
    · right
      rw [if_pos hfk] at hfe
      exact hfe.symm
    · left
      rw [if_neg hfk] at hfe
      exact hfe ▸ hf
  · rcases List.mem_append.mp h with h1 | h1
    · exact Or.inl h1
    · right
      simpa using h1

/-- The keys after a set: unchanged when the key was present, the key
appended otherwise. -/
theorem mapKeys_mapSet {α : Type} (m : JsMap α) (k : String) (v : α) :
    mapKeys (mapSet m k v) = mapKeys m ∨
      (mapKeys (mapSet m k v) = mapKeys m ++ [k] ∧ k ∉ mapKeys m) := by
  unfold mapSet
  split
  next hany =>
    left
    unfold mapKeys
    rw [List.map_map]
    apply List.map_congr_left
    intro e _
    by_cases he : (e.1 == k) = true
    · simp only [Function.comp_apply, if_pos he]
      exact (by simpa using he : e.1 = k).symm
    · simp only [Function.comp_apply, if_neg he]
  next hany =>
    right
    constructor
    · simp [mapKeys]
    · intro hk
      apply hany
      rw [List.any_eq_true]
      obtain ⟨e, he, hek⟩ := List.mem_map.mp hk
      exact ⟨e, he, by simpa using hek⟩

/-- Distinct keys are preserved by a set. -/
theorem nodupKeys_mapSet {α : Type} {m : JsMap α} (k : String) (v : α)
    (h : (mapKeys m).Nodup) : (mapKeys (mapSet m k v)).Nodup := by
  rcases mapKeys_mapSet m k v with heq | ⟨heq, hnk⟩
  · rw [heq]; exact h
  · rw [heq, List.nodup_append]
    refine ⟨h, by simp, ?_⟩
    intro a ha hb
    simp only [List.mem_singleton] at hb
    subst hb
    exact hnk ha

/-- With distinct keys, an entry in the list is what the map returns. -/
theorem mapGet_of_mem {α : Type} {m : JsMap α} {k : String} {v : α}
    (hnd : (mapKeys m).Nodup) (h : (k, v) ∈ m) : mapGet m k = some v := by
  induction m with
  | nil => cases h
  | cons e m ih =>
    have hnd1 : e.1 ∉ mapKeys m ∧ (mapKeys m).Nodup := by
      simpa [mapKeys] using hnd
    rcases List.mem_cons.mp h with rfl | hm
    · simp [mapGet, List.find?_cons]
    · have hk : e.1 ≠ k := by
        intro hek
        have : k ∈ mapKeys m := List.mem_map.mpr ⟨(k, v), hm, rfl⟩
        exact hnd1.1 (hek ▸ this)
      simp only [mapGet, List.find?_cons, show ¬(e.1 == k) = true by simpa using hk]
      exact ih hnd1.2 hm

/-- A successful read names an entry of the list. -/
theorem mem_of_mapGet {α : Type} {m : JsMap α} {k : String} {v : α}
    (h : mapGet m k = some v) : (k, v) ∈ m := by
  unfold mapGet at h
  obtain ⟨e, hfind, hev⟩ := Option.map_eq_some'.mp h
  have hmem := List.mem_of_find?_eq_some hfind
  have hek := List.find?_some hfind
  simp only [beq_iff_eq] at hek
  have : e = (k, v) := by
    obtain ⟨a, b⟩ := e
    simp only at hev hek
    simp [hek, hev]
  exact this ▸ hmem

/-- Membership in the values list names an entry. -/
theorem mem_mapValues_iff {α : Type} {m : JsMap α} {v : α} :
    v ∈ mapValues m ↔ ∃ k, (k, v) ∈ m := by
  unfold mapValues
  rw [List.mem_map]
  constructor
  · rintro ⟨⟨a, b⟩, hm, rfl⟩
    exact ⟨a, hm⟩
  · rintro ⟨k, hm⟩
    exact ⟨(k, v), hm, rfl⟩

/-! Claim theorems for the trigger registry. -/

/-- C5: re-registering an existing key overwrites the stored configuration
and label but keeps the lastRun of the previously registered trigger under
that key.  (Specification section 3, TriggerKey invariant; section 8.) -/
theorem claim_C5_register_preserves_lastRun (cronNext : CronNext)
    (st : TMState) (now : Int) (workspace workflowPath nodeId label : String)
    (config : TriggerConfig) (old : RegisteredTrigger)
    (h : mapGet st.triggers (getTriggerKey workspace workflowPath nodeId) = some old) :
    let out := register cronNext st now workspace workflowPath nodeId label config
    mapGet out.1.triggers (getTriggerKey workspace workflowPath nodeId) = some out.2 ∧
      out.2.config = config ∧ out.2.label = label ∧ out.2.lastRun = old.lastRun := by
  refine ⟨?_, rfl, rfl, ?_⟩
  · simp only [register]
    exact mapGet_mapSet_self _ _ _
  · simp only [register, h, Option.bind]

/-- Witness for C5 at a concrete state. -/
theorem claim_C5_witness :
    (mapGet (TMState.mk
        [("w:p:n", { id := "w:p:n", workspace := "w", workflowPath := "p",
                     nodeId := "n", label := "L0",
                     config := { type := "idle", idleMinutes := some 5 },
                     enabled := true, lastRun := some 42 })] none).triggers
        (getTriggerKey "w" "p" "n") = some
        { id := "w:p:n", workspace := "w", workflowPath := "p",
          nodeId := "n", label := "L0",
          config := { type := "idle", idleMinutes := some 5 },
          enabled := true, lastRun := some 42 }) ∧
    ((register (fun _ _ => none)
        (TMState.mk
          [("w:p:n", { id := "w:p:n", workspace := "w", workflowPath := "p",
                       nodeId := "n", label := "L0",
                       config := { type := "idle", idleMinutes := some 5 },
                       enabled := true, lastRun := some 42 })] none)
        1000 "w" "p" "n" "L1" { type := "idle", idleMinutes := some 9 }).2.lastRun
      = some 42) := by
  refine ⟨by decide, ?_⟩
  have := claim_C5_register_preserves_lastRun (fun _ _ => none)
    (TMState.mk
      [("w:p:n", { id := "w:p:n", workspace := "w", workflowPath := "p",
                   nodeId := "n", label := "L0",
                   config := { type := "idle", idleMinutes := some 5 },
                   enabled := true, lastRun := some 42 })] none)
    1000 "w" "p" "n" "L1" { type := "idle", idleMinutes := some 9 }
    { id := "w:p:n", workspace := "w", workflowPath := "p",
      nodeId := "n", label := "L0",
      config := { type := "idle", idleMinutes := some 5 },
      enabled := true, lastRun := some 42 }
    (by decide)
  exact this.2.2.2

/-- C7: the idle tracker is edge-triggered.  Setting idle while already
idle is a no-op; setting idle from busy records the instant; setting busy
from idle clears it; setting busy while busy is a no-op; the idle duration
is zero whenever not idle; and a busy pulse followed by idle re-entry
resets the idle duration to zero.  (Specification sections 3, 4.3, 8.) -/
theorem claim_C7_idle_edge_triggered (st : TMState) (t1 t2 now : Int) :
    (∀ s, st.idleSince = some s → setIdle st now true = st) ∧
    (st.idleSince = none → (setIdle st now true).idleSince = some now) ∧
    (st.idleSince ≠ none → (setIdle st now false).idleSince = none) ∧
    (st.idleSince = none → setIdle st now false = st) ∧
    (st.idleSince = none → getIdleDuration st now = 0) ∧
    getIdleDuration (setIdle (setIdle st t1 false) t2 true) t2 = 0 := by
  refine ⟨?_, ?_, ?_, ?_, ?_, ?_⟩
  · intro s hs
    simp [setIdle, hs]
  · intro hs
    simp [setIdle, hs]
  · intro hs
    cases h : st.idleSince with
    | none => exact absurd h hs
    | some s => simp [setIdle, h]
  · intro hs
    simp [setIdle, hs]
  · intro hs
    simp [getIdleDuration, hs]
  · cases h : st.idleSince with
    | none => simp [setIdle, h, getIdleDuration]
    | some s => simp [setIdle, h, getIdleDuration]

/-- Witness for C7 at a concrete state. -/
theorem claim_C7_witness :
    (TMState.mk [] (some 5)).idleSince ≠ none ∧
    (setIdle (TMState.mk [] (some 5)) 9 false).idleSince = none := by
  refine ⟨by decide, ?_⟩
  exact (claim_C7_idle_edge_triggered (TMState.mk [] (some 5)) 0 0 9).2.2.1 (by decide)

/-- C9: register always stores the trigger enabled, so re-registering a key
whose trigger was disabled through setEnabled silently re-enables it, while
lastRun is still carried over.  (From the register and setEnabled
sources.) -/
theorem claim_C9_register_reenables (cronNext : CronNext) (st : TMState)
    (now : Int) (workspace workflowPath nodeId label : String)
    (config : TriggerConfig) (old : RegisteredTrigger)
    (h : mapGet st.triggers (getTriggerKey workspace workflowPath nodeId) = some old) :
    (∀ (st0 : TMState) (l0 : String) (c0 : TriggerConfig),
       (register cronNext st0 now workspace workflowPath nodeId l0 c0).2.enabled = true) ∧
    (let st1 := (setEnabled st workspace workflowPath nodeId false).1
     mapGet st1.triggers (getTriggerKey workspace workflowPath nodeId) =
         some { old with enabled := false } ∧
       (register cronNext st1 now workspace workflowPath nodeId label config).2.enabled
           = true ∧
       mapGet (register cronNext st1 now workspace workflowPath nodeId label config).1.triggers
           (getTriggerKey workspace workflowPath nodeId) =
         some (register cronNext st1 now workspace workflowPath nodeId label config).2 ∧
       (register cronNext st1 now workspace workflowPath nodeId label config).2.lastRun
           = old.lastRun) := by
  refine ⟨fun _ _ _ => rfl, ?_, rfl, ?_, ?_⟩
  · simp only [setEnabled, h]
    exact mapGet_mapSet_self _ _ _
  · simp only [register]
    exact mapGet_mapSet_self _ _ _
  · simp only [register, setEnabled, h]
    rw [mapGet_mapSet_self]
    simp [Option.bind]

/-- Witness for C9 at a concrete state. -/
theorem claim_C9_witness :
    (mapGet (TMState.mk
        [("w:p:n", { id := "w:p:n", workspace := "w", workflowPath := "p",
                     nodeId := "n", label := "L0",
                     config := { type := "idle", idleMinutes := some 5 },
                     enabled := true, lastRun := some 7 })] none).triggers
        (getTriggerKey "w" "p" "n") = some
        { id := "w:p:n", workspace := "w", workflowPath := "p",
          nodeId := "n", label := "L0",
          config := { type := "idle", idleMinutes := some 5 },
          enabled := true, lastRun := some 7 }) ∧
    ((register (fun _ _ => none)
        ((setEnabled (TMState.mk
          [("w:p:n", { id := "w:p:n", workspace := "w", workflowPath := "p",
                       nodeId := "n", label := "L0",
                       config := { type := "idle", idleMinutes := some 5 },
                       enabled := true, lastRun := some 7 })] none)
          "w" "p" "n" false).1)
        0 "w" "p" "n" "L1" { type := "idle", idleMinutes := some 5 }).2.enabled = true) := by
  refine ⟨by decide, ?_⟩
  have := claim_C9_register_reenables (fun _ _ => none)
    (TMState.mk
      [("w:p:n", { id := "w:p:n", workspace := "w", workflowPath := "p",
                   nodeId := "n", label := "L0",
                   config := { type := "idle", idleMinutes := some 5 },
                   enabled := true, lastRun := some 7 })] none)
    0 "w" "p" "n" "L1" { type := "idle", idleMinutes := some 5 }
    { id := "w:p:n", workspace := "w", workflowPath := "p",
      nodeId := "n", label := "L0",
      config := { type := "idle", idleMinutes := some 5 },
      enabled := true, lastRun := some 7 }
    (by decide)
  exact this.2.2.1

/-- The threshold comparison of getDueIdleTriggers, converted from the
minutes division of the source to an exact millisecond inequality. -/
theorem idle_threshold_iff (n : Nat) (ms : Int) :
    ((n : ℚ) ≤ (ms : ℚ) / 60000) ↔ ((n : Int) * 60000 ≤ ms) := by
  rw [le_div_iff (by norm_num : (0 : ℚ) < 60000)]
  constructor <;> intro h <;> exact_mod_cast h

/-- C6: due idle triggers are empty when the system is not idle; when idle
since some instant, a trigger is due exactly when it is registered, enabled,
of idle type, and its threshold in minutes does not exceed the elapsed idle
time, so a threshold of zero is due immediately upon entering idle and a
disabled trigger is never due.  (Specification sections 4.2 and 8.) -/
theorem claim_C6_due_idle_triggers (st : TMState) (now : Int) :
    (st.idleSince = none → getDueIdleTriggers st now = []) ∧
    (∀ since, st.idleSince = some since → ∀ tr,
      (tr ∈ getDueIdleTriggers st now ↔
        tr ∈ getAll st ∧ tr.enabled = true ∧ tr.config.type = "idle" ∧
          (tr.config.idleMinutes.getD 0 : ℚ) ≤ ((now - since : Int) : ℚ) / 60000)) ∧
    (∀ tr, tr.enabled = false → tr ∉ getDueIdleTriggers st now) ∧
    (st.idleSince = some now → ∀ tr, tr ∈ getAll st → tr.enabled = true →
      tr.config.type = "idle" → tr.config.idleMinutes.getD 0 = 0 →
      tr ∈ getDueIdleTriggers st now) := by
  have hmem : ∀ since, st.idleSince = some since → ∀ tr,
      (tr ∈ getDueIdleTriggers st now ↔
        tr ∈ getAll st ∧ tr.enabled = true ∧ tr.config.type = "idle" ∧
          (tr.config.idleMinutes.getD 0 : ℚ) ≤ ((now - since : Int) : ℚ) / 60000) := by
    intro since hs tr
    simp only [getDueIdleTriggers, hs, List.mem_filter, Bool.and_eq_true,
      beq_iff_eq, decide_eq_true_eq, and_assoc]
    constructor
    · rintro ⟨h1, h2, h3, h4⟩
      exact ⟨h1, h2, h3, (idle_threshold_iff _ _).mpr h4⟩
    · rintro ⟨h1, h2, h3, h4⟩
      exact ⟨h1, h2, h3, (idle_threshold_iff _ _).mp h4⟩
  refine ⟨?_, hmem, ?_, ?_⟩
  · intro hs
    simp [getDueIdleTriggers, hs]
  · intro tr htr hdue
    cases hs : st.idleSince with
    | none =>
      simp only [getDueIdleTriggers, hs] at hdue
      cases hdue
    | some since =>
      have := ((hmem since hs tr).mp hdue).2.1
      rw [htr] at this
      cases this
  · intro hs tr h1 h2 h3 h4
    refine (hmem now hs tr).mpr ⟨h1, h2, h3, ?_⟩
    rw [h4]
    norm_num

/-- Witness for C6: with idle triggers of two, five and ten minute
thresholds and three elapsed idle minutes, the two-minute trigger is
due.  (The example of specification section 8.) -/
theorem claim_C6_witness :
    (TMState.mk
        [("w:p:t2", { id := "w:p:t2", workspace := "w", workflowPath := "p",
                      nodeId := "t2", label := "two",
                      config := { type := "idle", idleMinutes := some 2 },
                      enabled := true }),
         ("w:p:t5", { id := "w:p:t5", workspace := "w", workflowPath := "p",
                      nodeId := "t5", label := "five",
                      config := { type := "idle", idleMinutes := some 5 },
                      enabled := true })] (some 0)).idleSince = some 0 ∧
    ({ id := "w:p:t2", workspace := "w", workflowPath := "p",
       nodeId := "t2", label := "two",
       config := { type := "idle", idleMinutes := some 2 },
       enabled := true } : RegisteredTrigger) ∈
      getDueIdleTriggers (TMState.mk
        [("w:p:t2", { id := "w:p:t2", workspace := "w", workflowPath := "p",
                      nodeId := "t2", label := "two",
                      config := { type := "idle", idleMinutes := some 2 },
                      enabled := true }),
         ("w:p:t5", { id := "w:p:t5", workspace := "w", workflowPath := "p",
                      nodeId := "t5", label := "five",
                      config := { type := "idle", idleMinutes := some 5 },
                      enabled := true })] (some 0)) 180000 := by
  refine ⟨rfl, ?_⟩
  refine (((claim_C6_due_idle_triggers _ 180000).2.1 0 rfl _).mpr ?_)
  exact ⟨by decide, rfl, rfl, by norm_num⟩

/-- The occurrence search only returns instants strictly after its base. -/
theorem searchNext_gt {m : Int → Bool} :
    ∀ (fuel : Nat) (t u : Int), searchNext m t fuel = some u → t < u := by
  intro fuel
  induction fuel with
  | zero => intro t u h; cases h
  | succ n ih =>
    intro t u h
    unfold searchNext at h
    split at h
    · cases h
      omega
    · have := ih (t + 1) u h
      omega

/-- C4: for every expression the validator accepts, getNextRunTime only
returns instants strictly after the base, never the base itself; an
expression that cannot be parsed yields the invalid-expression error.
(Specification sections 4.1 and 8.  The cron-parser library is external to
the repository and modelled from the specification.) -/
theorem claim_C4_next_run_strictly_future (cronExpr : String) (base : Int)
    (fuel : Nat) :
    (isValidCron cronExpr = true →
      ∀ t, getNextRunTime cronExpr base fuel = .ok t → base < t) ∧
    (parseCron cronExpr = none →
      getNextRunTime cronExpr base fuel =
        .error ("Invalid cron expression \"" ++ cronExpr ++ "\"")) := by
  constructor
  · intro hvalid t hok
    unfold getNextRunTime at hok
    split at hok
    · cases hok
    split at hok
    next u hs =>
      cases hok
      exact searchNext_gt fuel base t hs
    · cases hok
  · intro hp
    unfold getNextRunTime
    rw [hp]

/-- Witness for C4: a six-field all-wildcard expression is valid and its
next occurrence after instant zero is strictly later. -/
theorem claim_C4_witness :
    isValidCron "* * * * * *" = true ∧
      getNextRunTime "* * * * * *" 0 1 = .ok 1 ∧ (0 : Int) < 1 := by
  refine ⟨by decide, by rfl, ?_⟩
  exact (claim_C4_next_run_strictly_future "* * * * * *" 0 1).1 (by decide) 1 (by rfl)

/-! Lemmas about one checkAndFire cycle. -/

/-- Marking a trigger fired does not change its id. -/
theorem markFiredTrigger_id (cronNext : CronNext) (now : Int)
    (tr : RegisteredTrigger) : (markFiredTrigger cronNext now tr).id = tr.id := by
  simp only [markFiredTrigger]
  split <;> rfl

/-- Marking a trigger fired does not change its configuration. -/
theorem markFiredTrigger_config (cronNext : CronNext) (now : Int)
    (tr : RegisteredTrigger) :
    (markFiredTrigger cronNext now tr).config = tr.config := by
  simp only [markFiredTrigger]
  split <;> rfl

/-- With a callback, the firing loop invokes it once per listed trigger, in
order, whether or not the invocation succeeds. -/
theorem fireAll_calls (cronNext : CronNext) (f : FireCallback) (now : Int) :
    ∀ (l : List RegisteredTrigger) (st : TMState),
      (fireAll cronNext (some f) now l st).2.2 = l.map (·.id) := by
  intro l
  induction l with
  | nil => intro st; rfl
  | cons tr rest ih =>
    intro st
    cases hf : f tr.id with
    | true =>
      simp only [fireAll, hf, if_true, List.map_cons]
      rw [ih]
    | false =>
      simp only [fireAll, hf, Bool.false_eq_true, if_false, List.map_cons]
      rw [ih]

/-- With an always-successful callback, the loop fires every listed
trigger, and the fired list carries the same ids in the same order. -/
theorem fireAll_fired_all (cronNext : CronNext) (f : FireCallback) (now : Int)
    (hf : ∀ i, f i = true) :
    ∀ (l : List RegisteredTrigger) (st : TMState),
      (fireAll cronNext (some f) now l st).2.1.map (·.id) = l.map (·.id) := by
  intro l
  induction l with
  | nil => intro st; rfl
  | cons tr rest ih =>
    intro st
    simp only [fireAll, hf tr.id, if_true, List.map_cons, markFiredTrigger_id]
    rw [ih]

/-- Every id in the fired list of the loop comes from a listed trigger
whose callback invocation succeeded. -/
theorem fireAll_fired_id_mem (cronNext : CronNext) (f : FireCallback)
    (now : Int) :
    ∀ (l : List RegisteredTrigger) (st : TMState) (x : String),
      x ∈ (fireAll cronNext (some f) now l st).2.1.map (·.id) →
      ∃ tr ∈ l, f tr.id = true ∧ x = tr.id := by
  intro l
  induction l with
  | nil => intro st x h; cases h
  | cons tr rest ih =>
    intro st x h
    cases hf : f tr.id with
    | true =>
      simp only [fireAll, hf, if_true, List.map_cons, List.mem_cons,
        markFiredTrigger_id] at h
      rcases h with rfl | h
      · exact ⟨tr, List.mem_cons_self _ _, hf, rfl⟩
      · obtain ⟨u, hu, hfu, hx⟩ := ih _ x h
        exact ⟨u, List.mem_cons_of_mem _ hu, hfu, hx⟩
    | false =>
      simp only [fireAll, hf, Bool.false_eq_true, if_false] at h
      obtain ⟨u, hu, hfu, hx⟩ := ih _ x h
      exact ⟨u, List.mem_cons_of_mem _ hu, hfu, hx⟩

/-- The loop leaves untouched every key that no successfully fired listed
trigger has as its id. -/
theorem fireAll_preserve (cronNext : CronNext) (f : FireCallback) (now : Int) :
    ∀ (l : List RegisteredTrigger) (st : TMState) (k : String),
      (∀ tr ∈ l, f tr.id = true → tr.id ≠ k) →
      mapGet (fireAll cronNext (some f) now l st).1.triggers k =
        mapGet st.triggers k := by
  intro l
  induction l with
  | nil => intro st k _; rfl
  | cons tr rest ih =>
    intro st k hk
    cases hf : f tr.id with
    | true =>
      have hne : tr.id ≠ k := hk tr (List.mem_cons_self _ _) hf
      simp only [fireAll, hf, if_true]
      rw [ih _ k (fun u hu => hk u (List.mem_cons_of_mem _ hu))]
      exact mapGet_mapSet_ne _ _ (fun hh => hne hh.symm)
    | false =>
      simp only [fireAll, hf, Bool.false_eq_true, if_false]
      exact ih _ k (fun u hu => hk u (List.mem_cons_of_mem _ hu))

/-- The loop preserves distinctness of the stored keys. -/
theorem fireAll_nodup (cronNext : CronNext) (f : FireCallback) (now : Int) :
    ∀ (l : List RegisteredTrigger) (st : TMState),
      (mapKeys st.triggers).Nodup →
      (mapKeys (fireAll cronNext (some f) now l st).1.triggers).Nodup := by
  intro l
  induction l with
  | nil => intro st h; exact h
  | cons tr rest ih =>
    intro st h
    cases hf : f tr.id with
    | true =>
      simp only [fireAll, hf, if_true]
      exact ih _ (nodupKeys_mapSet _ _ h)
    | false =>
      simp only [fireAll, hf, Bool.false_eq_true, if_false]
      exact ih _ h

/-- The loop preserves the invariant that every stored record carries its
own key as id. -/
theorem fireAll_ids (cronNext : CronNext) (f : FireCallback) (now : Int) :
    ∀ (l : List RegisteredTrigger) (st : TMState),
      (∀ e ∈ st.triggers, (e : String × RegisteredTrigger).2.id = e.1) →
      ∀ e ∈ (fireAll cronNext (some f) now l st).1.triggers,
        (e : String × RegisteredTrigger).2.id = e.1 := by
  intro l
  induction l with
  | nil => intro st h; exact h
  | cons tr rest ih =>
    intro st h
    cases hf : f tr.id with
    | true =>
      simp only [fireAll, hf, if_true]
      refine ih _ ?_
      intro e he
      rcases mem_mapSet he with he1 | he1
      · exact h e he1
      · rw [he1]
        exact markFiredTrigger_id cronNext now tr
    | false =>
      simp only [fireAll, hf, Bool.false_eq_true, if_false]
      exact ih _ h

/-- A selected trigger is a member of the list it was selected from. -/
theorem selectRandom_mem {l : List RegisteredTrigger} {pick : Nat}
    {x : RegisteredTrigger} (h : selectRandom l pick = some x) : x ∈ l := by
  unfold selectRandom at h
  split at h
  · cases h
  · exact List.get?_mem h

/-- Selection from a nonempty list always picks something. -/
theorem selectRandom_of_ne_nil {l : List RegisteredTrigger} (pick : Nat)
    (h : l ≠ []) : ∃ x, selectRandom l pick = some x ∧ x ∈ l := by
  have hlen : 0 < l.length := List.length_pos.mpr h
  have hlt : pick % l.length < l.length := Nat.mod_lt _ hlen
  unfold selectRandom
  rw [if_neg (by simpa [List.isEmpty_iff] using h)]
  exact ⟨l.get ⟨pick % l.length, hlt⟩, List.get?_eq_get hlt,
    List.get_mem l (pick % l.length) hlt⟩

/-- A due cron trigger is a registered record of cron type. -/
theorem mem_getDueTriggers {st : TMState} {now : Int}
    {tr : RegisteredTrigger} (h : tr ∈ getDueTriggers st now) :
    tr ∈ getAll st ∧ tr.config.type = "cron" := by
  unfold getDueTriggers at h
  have := List.mem_filter.mp h
  refine ⟨this.1, ?_⟩
  have hb := this.2
  simp only [Bool.and_eq_true, beq_iff_eq] at hb
  exact hb.1.2

/-- A due idle trigger is a registered record of idle type. -/
theorem mem_getDueIdleTriggers {st : TMState} {now : Int}
    {tr : RegisteredTrigger} (h : tr ∈ getDueIdleTriggers st now) :
    tr ∈ getAll st ∧ tr.config.type = "idle" := by
  unfold getDueIdleTriggers at h
  split at h
  · cases h
  · have := List.mem_filter.mp h
    refine ⟨this.1, ?_⟩
    have hb := this.2
    simp only [Bool.and_eq_true, beq_iff_eq] at hb
    exact hb.1.2

/-- With distinct keys and matching ids, a registered record is what the
map returns at its id. -/
theorem mapGet_id_of_mem_getAll {st : TMState} {tr : RegisteredTrigger}
    (hK : (mapKeys st.triggers).Nodup)
    (hI : ∀ e ∈ st.triggers, (e : String × RegisteredTrigger).2.id = e.1)
    (h : tr ∈ getAll st) : mapGet st.triggers tr.id = some tr := by
  obtain ⟨k, hk⟩ := mem_mapValues_iff.mp h
  have := hI (k, tr) hk
  simp only at this
  exact mapGet_of_mem hK (this ▸ hk)

/-- C2: with a registered callback that returns normally, one check cycle
invokes the callback once per due cron trigger (all of them), then exactly
once for exactly one member of the due idle set (when that set is
nonempty), and the returned fired list carries exactly the ids of the
invocations.  (Specification sections 4.4 and 8.) -/
theorem claim_C2_check_and_fire_counts (cronNext : CronNext)
    (f : FireCallback) (pick : Nat) (st : TMState) (now : Int)
    (hf : ∀ i, f i = true) :
    (checkAndFire cronNext (some f) pick st now).calls =
      (getDueTriggers st now).map (·.id) ++
        (match selectRandom (getDueIdleTriggers
            (fireAll cronNext (some f) now (getDueTriggers st now) st).1 now) pick with
         | none => []
         | some sel => [sel.id]) ∧
    (checkAndFire cronNext (some f) pick st now).fired.map (·.id) =
      (checkAndFire cronNext (some f) pick st now).calls ∧
    (getDueIdleTriggers
        (fireAll cronNext (some f) now (getDueTriggers st now) st).1 now ≠ [] →
      ∃ sel, selectRandom (getDueIdleTriggers
          (fireAll cronNext (some f) now (getDueTriggers st now) st).1 now) pick
          = some sel ∧
        sel ∈ getDueIdleTriggers
          (fireAll cronNext (some f) now (getDueTriggers st now) st).1 now) := by
  refine ⟨?_, ?_, ?_⟩
  · simp only [checkAndFire]
    cases hsel : selectRandom (getDueIdleTriggers
        (fireAll cronNext (some f) now (getDueTriggers st now) st).1 now) pick with
    | none => simp [hsel, fireAll_calls]
    | some sel => simp [hsel, fireAll_calls, hf sel.id]
  · simp only [checkAndFire]
    cases hsel : selectRandom (getDueIdleTriggers
        (fireAll cronNext (some f) now (getDueTriggers st now) st).1 now) pick with
    | none => simp [hsel, fireAll_calls, fireAll_fired_all cronNext f now hf]
    | some sel =>
      simp [hsel, fireAll_calls, fireAll_fired_all cronNext f now hf,
        hf sel.id, markFiredTrigger_id]
  · intro hne
    exact selectRandom_of_ne_nil pick hne

/-- Witness for C2: on a registry with two due cron triggers and a due
idle trigger, the cycle calls the callback on both cron triggers and the
idle trigger, and fires all three. -/
theorem claim_C2_witness :
    (∀ i : String, (fun _ => true : FireCallback) i = true) ∧
    (checkAndFire wCronNext (some (fun _ => true)) 0 wSt 10).calls =
      ["w:p:c1", "w:p:c2", "w:p:i1"] ∧
    (checkAndFire wCronNext (some (fun _ => true)) 0 wSt 10).fired.map (·.id) =
      ["w:p:c1", "w:p:c2", "w:p:i1"] := by
  have h := claim_C2_check_and_fire_counts wCronNext (fun _ => true) 0 wSt 10
    (fun _ => rfl)
  refine ⟨fun _ => rfl, h.1.trans (by decide), (h.2.1.trans h.1).trans (by decide)⟩

/-- C3: when the callback throws for one due trigger, the cycle still
completes: every due cron trigger is still passed to the callback (and the
idle selection still happens), while the failing trigger is not marked
fired, keeps its stored record (lastRun and nextRun included) unchanged,
and is absent from the returned fired list.  (Specification sections 4.4
and 7.) -/
theorem claim_C3_callback_failure_isolated (cronNext : CronNext)
    (f : FireCallback) (pick : Nat) (st : TMState) (now : Int)
    (hK : (mapKeys st.triggers).Nodup)
    (hI : ∀ e ∈ st.triggers, (e : String × RegisteredTrigger).2.id = e.1) :
    (checkAndFire cronNext (some f) pick st now).calls =
      (getDueTriggers st now).map (·.id) ++
        (match selectRandom (getDueIdleTriggers
            (fireAll cronNext (some f) now (getDueTriggers st now) st).1 now) pick with
         | none => []
         | some sel => [sel.id]) ∧
    (∀ tr ∈ getDueTriggers st now, f tr.id = false →
      mapGet (checkAndFire cronNext (some f) pick st now).state.triggers tr.id
          = some tr ∧
      tr.id ∉ (checkAndFire cronNext (some f) pick st now).fired.map (·.id)) := by
  constructor
  · simp only [checkAndFire]
    cases hsel : selectRandom (getDueIdleTriggers
        (fireAll cronNext (some f) now (getDueTriggers st now) st).1 now) pick with
    | none => simp [hsel, fireAll_calls]
    | some sel =>
      cases hfs : f sel.id with
      | true => simp [hsel, hfs, fireAll_calls]
      | false => simp [hsel, hfs, fireAll_calls]
  · intro tr htr hfa
    have hpre : ∀ u ∈ getDueTriggers st now, f u.id = true → u.id ≠ tr.id := by
      intro u hu hfu hequ
      rw [hequ, hfa] at hfu
      cases hfu
    have hst1get :
        mapGet (fireAll cronNext (some f) now (getDueTriggers st now) st).1.triggers
          tr.id = mapGet st.triggers tr.id :=
      fireAll_preserve cronNext f now _ st tr.id hpre
    have hstget : mapGet st.triggers tr.id = some tr :=
      mapGet_id_of_mem_getAll hK hI (mem_getDueTriggers htr).1
    have hfired1 : tr.id ∉
        (fireAll cronNext (some f) now (getDueTriggers st now) st).2.1.map (·.id) := by
      intro hmem
      obtain ⟨u, hu, hfu, hx⟩ := fireAll_fired_id_mem cronNext f now _ st tr.id hmem
      exact hpre u hu hfu hx.symm
    simp only [checkAndFire]
    cases hsel : selectRandom (getDueIdleTriggers
        (fireAll cronNext (some f) now (getDueTriggers st now) st).1 now) pick with
    | none =>
      refine ⟨by simpa [hsel] using hst1get.trans hstget, ?_⟩
      simpa [hsel] using hfired1
    | some sel =>
      have hselne : sel.id ≠ tr.id := by
        intro hid
        have hK1 := fireAll_nodup cronNext f now (getDueTriggers st now) st hK
        have hI1 := fireAll_ids cronNext f now (getDueTriggers st now) st hI
        have hselmem := selectRandom_mem hsel
        obtain ⟨hmemAll, htype⟩ := mem_getDueIdleTriggers hselmem
        have hselget := mapGet_id_of_mem_getAll hK1 hI1 hmemAll
        rw [hid, hst1get, hstget] at hselget
        have : sel = tr := by
          injection hselget.symm
        rw [this] at htype
        have hcron := (mem_getDueTriggers htr).2
        exact absurd (htype.symm.trans hcron) (by decide)
      cases hfs : f sel.id with
      | true =>
        refine ⟨?_, ?_⟩
        · simp only [hsel, hfs, if_true]
          rw [mapGet_mapSet_ne _ _ hselne.symm]
          exact hst1get.trans hstget
        · simp only [hsel, hfs, if_true, List.map_append, List.mem_append]
          rintro (hmem | hmem)
          · exact hfired1 hmem
          · simp only [List.map_cons, List.map_nil, List.mem_singleton,
              markFiredTrigger_id] at hmem
            exact hselne hmem.symm
      | false =>
        refine ⟨by simpa [hsel, hfs] using hst1get.trans hstget, ?_⟩
        simpa [hsel, hfs] using hfired1

/-- Witness for C3: with a callback that throws exactly for the first cron
trigger, the cycle still calls it on both cron triggers and the idle
trigger, the failing trigger keeps its stored record, and it is missing
from the fired list while the others fired. -/
theorem claim_C3_witness :
    (mapKeys wSt.triggers).Nodup ∧
    (∀ e ∈ wSt.triggers, (e : String × RegisteredTrigger).2.id = e.1) ∧
    wTrC1 ∈ getDueTriggers wSt 10 ∧ wCb "w:p:c1" = false ∧
    (checkAndFire wCronNext (some wCb) 0 wSt 10).calls =
      ["w:p:c1", "w:p:c2", "w:p:i1"] ∧
    mapGet (checkAndFire wCronNext (some wCb) 0 wSt 10).state.triggers "w:p:c1"
      = some wTrC1 ∧
    "w:p:c1" ∉ (checkAndFire wCronNext (some wCb) 0 wSt 10).fired.map (·.id) := by
  have h := claim_C3_callback_failure_isolated wCronNext wCb 0 wSt 10
    (by decide) (by decide)
  have hb := h.2 wTrC1 (by decide) (by decide)
  exact ⟨by decide, by decide, by decide, by decide,
    h.1.trans (by decide), hb.1, hb.2⟩

/-! Lemmas about the executor loop. -/

/-- The shell command loop reports the node id it was given. -/
theorem runShellCommands_nodeId (exec : ShellExec) (nodeId cwd : String) :
    ∀ (cmds outputs : List String) (lastExit : Int),
      (runShellCommands exec nodeId cwd cmds outputs lastExit).nodeId = nodeId := by
  intro cmds
  induction cmds with
  | nil => intro outputs lastExit; rfl
  | cons cmd rest ih =>
    intro outputs lastExit
    simp only [runShellCommands]
    split
    · exact ih _ _
    · split
      · rfl
      · exact ih _ _

/-- Node execution reports the id of the node it was given. -/
theorem executeNode_nodeId (exec : ShellExec) (node : WorkflowNode)
    (rootDirectory processCwd : String) :
    (executeNode exec node rootDirectory processCwd).nodeId = node.id := by
  simp only [executeNode]
  split
  · split
    · rfl
    · exact runShellCommands_nodeId _ _ _ _ _ _
  · split
    · rfl
    · split <;> rfl

/-- Template processing does not change the node id. -/
theorem processNodeTemplates_id (node : WorkflowNode) (ctx : ExecutionContext) :
    (processNodeTemplates node ctx).id = node.id := rfl

/-- The last element survives a cons onto a nonempty list. -/
theorem getLast?_cons_of_ne_nil {α : Type} (a : α) {l : List α} (h : l ≠ []) :
    (a :: l).getLast? = l.getLast? := by
  cases l with
  | nil => exact absurd rfl h
  | cons b t => simp [List.getLast?]

/-- A list with a last element is nonempty. -/
theorem ne_nil_of_getLast?_eq_some {α : Type} {l : List α} {x : α}
    (h : l.getLast? = some x) : l ≠ [] := by
  cases l with
  | nil => cases h
  | cons b t => exact List.cons_ne_nil _ _

/-- C1 core invariant: whenever a result of the traversal loop is failed,
the loop reports overall failure and that result (and its node id) closes
the result and order lists. -/
theorem runLoop_failed_last (exec : ShellExec) (nodeMap : JsMap WorkflowNode)
    (adjacency : JsMap (List String)) (labels : JsMap String)
    (rootDirectory processCwd : String)
    (hNM : ∀ e ∈ nodeMap, (e : String × WorkflowNode).2.id = e.1) :
    ∀ (fuel : Nat) (queue visited : List String) (outputs : JsMap String),
      ∀ r ∈ (runLoop exec nodeMap adjacency labels rootDirectory processCwd
          fuel queue visited outputs).results,
        r.status = .failed →
        (runLoop exec nodeMap adjacency labels rootDirectory processCwd
          fuel queue visited outputs).success = false ∧
        (runLoop exec nodeMap adjacency labels rootDirectory processCwd
          fuel queue visited outputs).results.getLast? = some r ∧
        (runLoop exec nodeMap adjacency labels rootDirectory processCwd
          fuel queue visited outputs).order.getLast? = some r.nodeId := by
  intro fuel
  induction fuel with
  | zero =>
    intro queue visited outputs r hr
    cases hr
  | succ n ih =>
    intro queue visited outputs r hr hfail
    cases queue with
    | nil => cases hr
    | cons nodeId rest =>
      by_cases hv : visited.contains nodeId
      · have hv1 : nodeId ∈ visited := by simpa using hv
        have heq : runLoop exec nodeMap adjacency labels rootDirectory processCwd
            (n + 1) (nodeId :: rest) visited outputs =
            runLoop exec nodeMap adjacency labels rootDirectory processCwd
              n rest visited outputs := by
          simp [runLoop, hv1]
        rw [heq] at hr ⊢
        exact ih rest visited outputs r hr hfail
      · have hv1 : nodeId ∉ visited := by simpa using hv
        cases hn : mapGet nodeMap nodeId with
        | none =>
          have heq : runLoop exec nodeMap adjacency labels rootDirectory processCwd
              (n + 1) (nodeId :: rest) visited outputs =
              runLoop exec nodeMap adjacency labels rootDirectory processCwd
                n rest (nodeId :: visited) outputs := by
            simp [runLoop, hv1, hn]
          rw [heq] at hr ⊢
          exact ih rest (nodeId :: visited) outputs r hr hfail
        | some node =>
          have hid : node.id = nodeId := hNM (nodeId, node) (mem_of_mapGet hn)
          by_cases hfailr : (executeNode exec
              (processNodeTemplates node
                { outputs := outputs, nodeLabels := labels })
              rootDirectory processCwd).status = .failed
          · have heq : runLoop exec nodeMap adjacency labels rootDirectory processCwd
                (n + 1) (nodeId :: rest) visited outputs =
                { results := [executeNode exec
                    (processNodeTemplates node
                      { outputs := outputs, nodeLabels := labels })
                    rootDirectory processCwd],
                  order := [nodeId], success := false,
                  outputs := (runLoop exec nodeMap adjacency labels rootDirectory
                    processCwd (n + 1) (nodeId :: rest) visited outputs).outputs } := by
              simp [runLoop, hv1, hn, hfailr]
            rw [heq] at hr ⊢
            simp only [List.mem_singleton] at hr
            subst hr
            refine ⟨rfl, rfl, ?_⟩
            simp [executeNode_nodeId, processNodeTemplates_id, hid]
          · have heq : runLoop exec nodeMap adjacency labels rootDirectory processCwd
                (n + 1) (nodeId :: rest) visited outputs =
                { results := executeNode exec
                    (processNodeTemplates node
                      { outputs := outputs, nodeLabels := labels })
                    rootDirectory processCwd ::
                    (runLoop exec nodeMap adjacency labels rootDirectory processCwd
                      n (rest ++ ((mapGet adjacency nodeId).getD []).filter
                          (fun t => !(nodeId :: visited).contains t))
                      (nodeId :: visited)
                      (match (executeNode exec
                          (processNodeTemplates node
                            { outputs := outputs, nodeLabels := labels })
                          rootDirectory processCwd).output with
                       | some o => if o = "" then outputs
                          else mapSet outputs nodeId (cleanOutput o)
                       | none => outputs)).results,
                  order := nodeId ::
                    (runLoop exec nodeMap adjacency labels rootDirectory processCwd
                      n (rest ++ ((mapGet adjacency nodeId).getD []).filter
                          (fun t => !(nodeId :: visited).contains t))
                      (nodeId :: visited)
                      (match (executeNode exec
                          (processNodeTemplates node
                            { outputs := outputs, nodeLabels := labels })
                          rootDirectory processCwd).output with
                       | some o => if o = "" then outputs
                          else mapSet outputs nodeId (cleanOutput o)
                       | none => outputs)).order,
                  success :=
                    (runLoop exec nodeMap adjacency labels rootDirectory processCwd
                      n (rest ++ ((mapGet adjacency nodeId).getD []).filter
                          (fun t => !(nodeId :: visited).contains t))
                      (nodeId :: visited)
                      (match (executeNode exec
                          (processNodeTemplates node
                            { outputs := outputs, nodeLabels := labels })
                          rootDirectory processCwd).output with
                       | some o => if o = "" then outputs
                          else mapSet outputs nodeId (cleanOutput o)
                       | none => outputs)).success,
                  outputs :=
                    (runLoop exec nodeMap adjacency labels rootDirectory processCwd
                      n (rest ++ ((mapGet adjacency nodeId).getD []).filter
                          (fun t => !(nodeId :: visited).contains t))
                      (nodeId :: visited)
                      (match (executeNode exec
                          (processNodeTemplates node
                            { outputs := outputs, nodeLabels := labels })
                          rootDirectory processCwd).output with
                       | some o => if o = "" then outputs
                          else mapSet outputs nodeId (cleanOutput o)
                       | none => outputs)).outputs } := by
              simp [runLoop, hv1, hn, hfailr]
            rw [heq] at hr ⊢
            simp only [List.mem_cons] at hr
            rcases hr with rfl | hr
            · exact absurd hfail hfailr
            · obtain ⟨hsucc, hlast, hord⟩ := ih _ _ _ r hr hfail
              refine ⟨hsucc, ?_, ?_⟩
              · rw [getLast?_cons_of_ne_nil _ (ne_nil_of_getLast?_eq_some hlast)]
                exact hlast
              · rw [getLast?_cons_of_ne_nil _ (ne_nil_of_getLast?_eq_some hord)]
                exact hord

/-- C10 core invariant: the loop emits one result per executed node with
matching ids in matching order, never repeats a node, and only executes
ids that are fresh (not previously visited) and name an existing node. -/
theorem runLoop_wellformed (exec : ShellExec) (nodeMap : JsMap WorkflowNode)
    (adjacency : JsMap (List String)) (labels : JsMap String)
    (rootDirectory processCwd : String)
    (hNM : ∀ e ∈ nodeMap, (e : String × WorkflowNode).2.id = e.1) :
    ∀ (fuel : Nat) (queue visited : List String) (outputs : JsMap String),
      (runLoop exec nodeMap adjacency labels rootDirectory processCwd
          fuel queue visited outputs).results.map (·.nodeId) =
        (runLoop exec nodeMap adjacency labels rootDirectory processCwd
          fuel queue visited outputs).order ∧
      (runLoop exec nodeMap adjacency labels rootDirectory processCwd
          fuel queue visited outputs).order.Nodup ∧
      (∀ id ∈ (runLoop exec nodeMap adjacency labels rootDirectory processCwd
          fuel queue visited outputs).order,
        id ∉ visited ∧ (mapGet nodeMap id).isSome) := by
  intro fuel
  induction fuel with
  | zero =>
    intro queue visited outputs
    exact ⟨rfl, List.nodup_nil, by intro id h; cases h⟩
  | succ n ih =>
    intro queue visited outputs
    cases queue with
    | nil => exact ⟨rfl, List.nodup_nil, by intro id h; cases h⟩
    | cons nodeId rest =>
      by_cases hv : visited.contains nodeId
      · have hv1 : nodeId ∈ visited := by simpa using hv
        have heq : runLoop exec nodeMap adjacency labels rootDirectory processCwd
            (n + 1) (nodeId :: rest) visited outputs =
            runLoop exec nodeMap adjacency labels rootDirectory processCwd
              n rest visited outputs := by
          simp [runLoop, hv1]
        rw [heq]
        exact ih rest visited outputs
      · have hv1 : nodeId ∉ visited := by simpa using hv
        cases hn : mapGet nodeMap nodeId with
        | none =>
          have heq : runLoop exec nodeMap adjacency labels rootDirectory processCwd
              (n + 1) (nodeId :: rest) visited outputs =
              runLoop exec nodeMap adjacency labels rootDirectory processCwd
                n rest (nodeId :: visited) outputs := by
            simp [runLoop, hv1, hn]
          rw [heq]
          obtain ⟨h1, h2, h3⟩ := ih rest (nodeId :: visited) outputs
          refine ⟨h1, h2, ?_⟩
          intro id hid
          obtain ⟨hnv, hsome⟩ := h3 id hid
          exact ⟨fun hc => hnv (List.mem_cons_of_mem _ hc), hsome⟩
        | some node =>
          have hid : node.id = nodeId := hNM (nodeId, node) (mem_of_mapGet hn)
          have hrid : (executeNode exec
              (processNodeTemplates node
                { outputs := outputs, nodeLabels := labels })
              rootDirectory processCwd).nodeId = nodeId := by
            rw [executeNode_nodeId, processNodeTemplates_id, hid]
          by_cases hfailr : (executeNode exec
              (processNodeTemplates node
                { outputs := outputs, nodeLabels := labels })
              rootDirectory processCwd).status = .failed
          · have heq : runLoop exec nodeMap adjacency labels rootDirectory processCwd
                (n + 1) (nodeId :: rest) visited outputs =
                { results := [executeNode exec
                    (processNodeTemplates node
                      { outputs := outputs, nodeLabels := labels })
                    rootDirectory processCwd],
                  order := [nodeId], success := false,
                  outputs := (runLoop exec nodeMap adjacency labels rootDirectory
                    processCwd (n + 1) (nodeId :: rest) visited outputs).outputs } := by
              simp [runLoop, hv1, hn, hfailr]
            rw [heq]
            refine ⟨by simp [hrid], List.nodup_singleton _, ?_⟩
            intro id hid2
            simp only [List.mem_singleton] at hid2
            subst hid2
            exact ⟨hv1, by simp [hn]⟩
          · have heq : runLoop exec nodeMap adjacency labels rootDirectory processCwd
                (n + 1) (nodeId :: rest) visited outputs =
                { results := executeNode exec
                    (processNodeTemplates node
                      { outputs := outputs, nodeLabels := labels })
                    rootDirectory processCwd ::
                    (runLoop exec nodeMap adjacency labels rootDirectory processCwd
                      n (rest ++ ((mapGet adjacency nodeId).getD []).filter
                          (fun t => !(nodeId :: visited).contains t))
                      (nodeId :: visited)
                      (match (executeNode exec
                          (processNodeTemplates node
                            { outputs := outputs, nodeLabels := labels })
                          rootDirectory processCwd).output with
                       | some o => if o = "" then outputs
                          else mapSet outputs nodeId (cleanOutput o)
                       | none => outputs)).results,
                  order := nodeId ::
                    (runLoop exec nodeMap adjacency labels rootDirectory processCwd
                      n (rest ++ ((mapGet adjacency nodeId).getD []).filter
                          (fun t => !(nodeId :: visited).contains t))
                      (nodeId :: visited)
                      (match (executeNode exec
                          (processNodeTemplates node
                            { outputs := outputs, nodeLabels := labels })
                          rootDirectory processCwd).output with
                       | some o => if o = "" then outputs
                          else mapSet outputs nodeId (cleanOutput o)
                       | none => outputs)).order,
                  success :=
                    (runLoop exec nodeMap adjacency labels rootDirectory processCwd
                      n (rest ++ ((mapGet adjacency nodeId).getD []).filter
                          (fun t => !(nodeId :: visited).contains t))
                      (nodeId :: visited)
                      (match (executeNode exec
                          (processNodeTemplates node
                            { outputs := outputs, nodeLabels := labels })
                          rootDirectory processCwd).output with
                       | some o => if o = "" then outputs
                          else mapSet outputs nodeId (cleanOutput o)
                       | none => outputs)).success,
                  outputs :=
                    (runLoop exec nodeMap adjacency labels rootDirectory processCwd
                      n (rest ++ ((mapGet adjacency nodeId).getD []).filter
                          (fun t => !(nodeId :: visited).contains t))
                      (nodeId :: visited)
                      (match (executeNode exec
                          (processNodeTemplates node
                            { outputs := outputs, nodeLabels := labels })
                          rootDirectory processCwd).output with
                       | some o => if o = "" then outputs
                          else mapSet outputs nodeId (cleanOutput o)
                       | none => outputs)).outputs } := by
              simp [runLoop, hv1, hn, hfailr]
            rw [heq]
            obtain ⟨h1, h2, h3⟩ := ih
              (rest ++ ((mapGet adjacency nodeId).getD []).filter
                (fun t => !(nodeId :: visited).contains t))
              (nodeId :: visited)
              (match (executeNode exec
                  (processNodeTemplates node
                    { outputs := outputs, nodeLabels := labels })
                  rootDirectory processCwd).output with
               | some o => if o = "" then outputs
                  else mapSet outputs nodeId (cleanOutput o)
               | none => outputs)
            refine ⟨by simp only [List.map_cons, hrid, h1], ?_, ?_⟩
            · rw [List.nodup_cons]
              refine ⟨?_, h2⟩
              intro hc
              exact (h3 nodeId hc).1 (List.mem_cons_self _ _)
            · intro id hid2
              rcases List.mem_cons.mp hid2 with rfl | hid3
              · exact ⟨hv1, by simp [hn]⟩
              · obtain ⟨hnv, hsome⟩ := h3 id hid3
                exact ⟨fun hc => hnv (List.mem_cons_of_mem _ hc), hsome⟩

/-- The node-map fold only stores nodes of the list, each under its own
id. -/
theorem mem_buildNodeMap_aux (allNodes : List WorkflowNode) :
    ∀ (l : List WorkflowNode) (init : JsMap WorkflowNode),
      (∀ n ∈ l, n ∈ allNodes) →
      (∀ e ∈ init, (e : String × WorkflowNode).2.id = e.1 ∧ e.2 ∈ allNodes) →
      ∀ e ∈ l.foldl (fun m n => mapSet m n.id n) init,
        (e : String × WorkflowNode).2.id = e.1 ∧ e.2 ∈ allNodes := by
  intro l
  induction l with
  | nil => intro init _ hinit e he; exact hinit e he
  | cons n rest ih =>
    intro init hl hinit e he
    refine ih (mapSet init n.id n) (fun m hm => hl m (List.mem_cons_of_mem _ hm))
      ?_ e he
    intro f hf
    rcases mem_mapSet hf with hf1 | hf1
    · exact hinit f hf1
    · rw [hf1]
      exact ⟨rfl, hl n (List.mem_cons_self _ _)⟩

/-- Every entry of the node map stores a listed node under its own id. -/
theorem mem_buildNodeMap {nodes : List WorkflowNode}
    {e : String × WorkflowNode} (h : e ∈ buildNodeMap nodes) :
    e.2.id = e.1 ∧ e.2 ∈ nodes := by
  exact mem_buildNodeMap_aux nodes nodes [] (fun _ hm => hm)
    (fun _ hf => absurd hf (List.not_mem_nil _)) e h

/-- C1: whenever a node of an executed workflow fails, the response is
unsuccessful and the failed node closes both the result list and the
execution order, so no node queued after it was executed.  (Specification
sections 4.5 step 6 and 8.) -/
theorem claim_C1_failure_stops_traversal (exec : ShellExec)
    (nodes : List WorkflowNode) (edges : List WorkflowEdge)
    (rootDirectory : Option String) (processCwd : String)
    (startNodeId : Option String) (fuel : Nat) (resp : ExecuteResponse)
    (h : executeWorkflow exec nodes edges rootDirectory processCwd startNodeId
        fuel = some resp) :
    ∀ r ∈ resp.results, r.status = .failed →
      resp.success = false ∧
      resp.results.getLast? = some r ∧
      resp.executionOrder.getLast? = some r.nodeId := by
  intro r hr hfail
  have hNM : ∀ e ∈ buildNodeMap nodes,
      (e : String × WorkflowNode).2.id = e.1 := fun e he => (mem_buildNodeMap he).1
  unfold executeWorkflow at h
  cases hsn : startNodesOf nodes edges startNodeId with
  | none => rw [hsn] at h; cases h
  | some startNodes =>
    rw [hsn] at h
    simp only at h
    cases h
    exact runLoop_failed_last exec (buildNodeMap nodes) (buildAdjacencyMap edges)
      (buildLabels nodes) (jsOr rootDirectory processCwd) processCwd hNM
      fuel startNodes [] [] r hr hfail

/-- Witness for C1: in the trigger-shell-shell workflow whose middle node
fails, the failed node is last in results and order and the run is
unsuccessful. -/
theorem claim_C1_witness :
    executeWorkflow exExec exNodes exEdges none "/" none 10 = some
      { success := false,
        results := [
          { nodeId := "t", status := .completed,
            output := some "Trigger activated" },
          { nodeId := "a", status := .failed, output := some "$ boom\nbad",
            error := some "Command failed with exit code 1",
            exitCode := some 1 } ],
        executionOrder := ["t", "a"] } ∧
    ({ nodeId := "a", status := .failed, output := some "$ boom\nbad",
       error := some "Command failed with exit code 1",
       exitCode := some 1 } : NodeResult).status = .failed ∧
    (false = false ∧
      ([{ nodeId := "t", status := .completed,
          output := some "Trigger activated" },
        { nodeId := "a", status := .failed, output := some "$ boom\nbad",
          error := some "Command failed with exit code 1",
          exitCode := some 1 }] : List NodeResult).getLast? = some
        { nodeId := "a", status := .failed, output := some "$ boom\nbad",
          error := some "Command failed with exit code 1",
          exitCode := some 1 } ∧
      (["t", "a"] : List String).getLast? = some "a") := by
  refine ⟨by decide, by decide, ?_⟩
  exact claim_C1_failure_stops_traversal exExec exNodes exEdges none "/" none 10
    { success := false,
      results := [
        { nodeId := "t", status := .completed,
          output := some "Trigger activated" },
        { nodeId := "a", status := .failed, output := some "$ boom\nbad",
          error := some "Command failed with exit code 1",
          exitCode := some 1 } ],
      executionOrder := ["t", "a"] } (by decide)
    { nodeId := "a", status := .failed, output := some "$ boom\nbad",
      error := some "Command failed with exit code 1", exitCode := some 1 }
    (by decide) (by decide)

/-- C10: the execution order of a response contains no duplicate ids, every
id in it names a node of the input, and results parallels the execution
order entry by entry with matching node ids (queued ids without a node are
skipped and appear in neither).  (From the createExecuteRouter loop.) -/
theorem claim_C10_response_well_formed (exec : ShellExec)
    (nodes : List WorkflowNode) (edges : List WorkflowEdge)
    (rootDirectory : Option String) (processCwd : String)
    (startNodeId : Option String) (fuel : Nat) (resp : ExecuteResponse)
    (h : executeWorkflow exec nodes edges rootDirectory processCwd startNodeId
        fuel = some resp) :
    resp.executionOrder.Nodup ∧
    resp.results.map (·.nodeId) = resp.executionOrder ∧
    (∀ id ∈ resp.executionOrder, ∃ n ∈ nodes, n.id = id) := by
  have hNM : ∀ e ∈ buildNodeMap nodes,
      (e : String × WorkflowNode).2.id = e.1 := fun e he => (mem_buildNodeMap he).1
  unfold executeWorkflow at h
  cases hsn : startNodesOf nodes edges startNodeId with
  | none => rw [hsn] at h; cases h
  | some startNodes =>
    rw [hsn] at h
    simp only at h
    cases h
    obtain ⟨h1, h2, h3⟩ := runLoop_wellformed exec (buildNodeMap nodes)
      (buildAdjacencyMap edges) (buildLabels nodes)
      (jsOr rootDirectory processCwd) processCwd hNM fuel startNodes [] []
    refine ⟨h2, h1, ?_⟩
    intro id hid
    obtain ⟨hnv, hsome⟩ := h3 id hid
    obtain ⟨node, hget⟩ := Option.isSome_iff_exists.mp hsome
    obtain ⟨hid2, hmem⟩ := mem_buildNodeMap (mem_of_mapGet hget)
    exact ⟨node, hmem, hid2⟩

/-- Witness for C10 on the same failing workflow run. -/
theorem claim_C10_witness :
    executeWorkflow exExec exNodes exEdges none "/" none 10 = some
      { success := false,
        results := [
          { nodeId := "t", status := .completed,
            output := some "Trigger activated" },
          { nodeId := "a", status := .failed, output := some "$ boom\nbad",
            error := some "Command failed with exit code 1",
            exitCode := some 1 } ],
        executionOrder := ["t", "a"] } ∧
    (["t", "a"] : List String).Nodup ∧
    (∀ id ∈ (["t", "a"] : List String), ∃ n ∈ exNodes, n.id = id) := by
  have h := claim_C10_response_well_formed exExec exNodes exEdges none "/" none 10
    { success := false,
      results := [
        { nodeId := "t", status := .completed,
          output := some "Trigger activated" },
        { nodeId := "a", status := .failed, output := some "$ boom\nbad",
          error := some "Command failed with exit code 1",
          exitCode := some 1 } ],
      executionOrder := ["t", "a"] } (by decide)
  exact ⟨by decide, h.1, h.2.2⟩

/-! Lemmas about template substitution. -/

/-- Identifier characters are not whitespace. -/
theorem ident_not_ws {c : Char} (h : isIdentChar c = true) : jsWs c = false := by
  cases hw : jsWs c
  · rfl
  · exfalso
    simp only [jsWs, Bool.or_eq_true, decide_eq_true_eq] at hw
    rcases hw with ((((h1 | h1) | h1) | h1) | h1) | h1 <;> (subst h1; revert h; decide)

/-- takeWhile over a block of satisfying characters followed by a failing
one takes exactly the block. -/
theorem takeWhile_all_append (p : Char → Bool) :
    ∀ (xs : List Char) {y : Char} (ys : List Char),
      (∀ c ∈ xs, p c = true) → p y = false →
      List.takeWhile p (xs ++ y :: ys) = xs := by
  intro xs
  induction xs with
  | nil =>
    intro y ys _ hy
    simp [List.takeWhile_cons, hy]
  | cons a as ih =>
    intro y ys hall hy
    have ha := hall a (List.mem_cons_self _ _)
    simp only [List.cons_append, List.takeWhile_cons, ha, if_true]
    rw [ih ys (fun c hc => hall c (List.mem_cons_of_mem _ hc)) hy]

/-- dropWhile skips a whole block of satisfying characters. -/
theorem dropWhile_all_append (p : Char → Bool) :
    ∀ (xs ys : List Char), (∀ c ∈ xs, p c = true) →
      List.dropWhile p (xs ++ ys) = List.dropWhile p ys := by
  intro xs
  induction xs with
  | nil => intro ys _; rfl
  | cons a as ih =>
    intro ys hall
    have ha := hall a (List.mem_cons_self _ _)
    simp only [List.cons_append, List.dropWhile_cons, ha, if_true]
    exact ih ys (fun c hc => hall c (List.mem_cons_of_mem _ hc))

/-- dropExpected consumes exactly an exact leading copy of the pattern. -/
theorem dropExpected_append_self (pat rest : List Char) :
    dropExpected pat (pat ++ rest) = some rest := by
  unfold dropExpected
  rw [if_pos (List.isPrefixOf_iff_prefix.mpr (List.prefix_append _ _))]
  rw [List.drop_left]

/-- Scanning the empty text yields the empty text at any fuel. -/
theorem scanTemplates_nil (ctx : ExecutionContext) :
    ∀ fuel, scanTemplates ctx fuel [] = [] := by
  intro fuel
  cases fuel <;> rfl

/-- The template matcher on a whole well-formed reference: it consumes the
entire text and extracts the identifier. -/
theorem matchTemplateAt_single (id : String) (c : Char) (cs : List Char)
    (hdata : id.data = c :: cs)
    (hident : ∀ ch ∈ id.data, isIdentChar ch = true) :
    matchTemplateAt ('{' :: '{' :: ' ' ::
        (id.data ++ ('.' :: 'o' :: 'u' :: 't' :: 'p' :: 'u' :: 't' :: ' ' :: '}' :: '}' :: []))) =
      some (id, ⟨'{' :: '{' :: ' ' ::
        (id.data ++ ('.' :: 'o' :: 'u' :: 't' :: 'p' :: 'u' :: 't' :: ' ' :: '}' :: '}' :: []))⟩, []) := by
  have hdrop1 : dropExpected ['{', '{'] ('{' :: '{' :: ' ' ::
      (id.data ++ ('.' :: 'o' :: 'u' :: 't' :: 'p' :: 'u' :: 't' :: ' ' :: '}' :: '}' :: []))) =
      some (' ' :: (id.data ++
        ('.' :: 'o' :: 'u' :: 't' :: 'p' :: 'u' :: 't' :: ' ' :: '}' :: '}' :: []))) := by
    unfold dropExpected
    simp [List.isPrefixOf]
  have hws : List.dropWhile jsWs (' ' :: (id.data ++
      ('.' :: 'o' :: 'u' :: 't' :: 'p' :: 'u' :: 't' :: ' ' :: '}' :: '}' :: []))) =
      id.data ++ ('.' :: 'o' :: 'u' :: 't' :: 'p' :: 'u' :: 't' :: ' ' :: '}' :: '}' :: []) := by
    rw [List.dropWhile_cons]
    rw [if_pos (by decide)]
    rw [hdata, List.cons_append, List.dropWhile_cons]
    rw [if_neg ?_]
    have := hident c (by rw [hdata]; exact List.mem_cons_self _ _)
    rw [ident_not_ws this]
    simp
  have htake : List.takeWhile isIdentChar (id.data ++
      ('.' :: 'o' :: 'u' :: 't' :: 'p' :: 'u' :: 't' :: ' ' :: '}' :: '}' :: [])) = id.data :=
    takeWhile_all_append isIdentChar id.data _ hident (by decide)
  have hdropid : List.dropWhile isIdentChar (id.data ++
      ('.' :: 'o' :: 'u' :: 't' :: 'p' :: 'u' :: 't' :: ' ' :: '}' :: '}' :: [])) =
      '.' :: 'o' :: 'u' :: 't' :: 'p' :: 'u' :: 't' :: ' ' :: '}' :: '}' :: [] := by
    rw [dropWhile_all_append isIdentChar id.data _ hident]
    rw [List.dropWhile_cons, if_neg (by decide)]
  unfold matchTemplateAt
  rw [hdrop1]
  simp only [Option.some_bind]
  rw [hws, htake, hdropid]
  rw [if_neg (by rw [hdata]; simp)]
  have hdrop2 : dropExpected ('.' :: "output".data)
      ('.' :: 'o' :: 'u' :: 't' :: 'p' :: 'u' :: 't' :: ' ' :: '}' :: '}' :: []) =
      some (' ' :: '}' :: '}' :: []) := by
    unfold dropExpected
    simp [List.isPrefixOf]
  rw [hdrop2]
  simp only [Option.some_bind]
  have hws2 : List.dropWhile jsWs (' ' :: '}' :: '}' :: []) = '}' :: '}' :: [] := by decide
  rw [hws2]
  have hdrop3 : dropExpected ['}', '}'] ('}' :: '}' :: []) = some [] := by decide
  rw [hdrop3]
  simp only [Option.some_bind]
  congr 1
  refine congrArg₂ Prod.mk ?_ ?_
  · rfl
  · refine congrArg₂ Prod.mk ?_ rfl
    congr 1
    simp

/-- A single well-formed template reference standing alone resolves to the
first node-id output, then to the first matching-label output, and stays
verbatim otherwise. -/
theorem replaceTemplates_single (ctx : ExecutionContext) (id : String)
    (hne : id ≠ "") (hident : ∀ ch ∈ id.data, isIdentChar ch = true) :
    replaceTemplates ("\x7b\x7b " ++ id ++ ".output \x7d\x7d") ctx =
      (match mapGet ctx.outputs id with
       | some v => v
       | none =>
         match lookupLabelOutput ctx.outputs id ctx.nodeLabels with
         | some v => v
         | none => "\x7b\x7b " ++ id ++ ".output \x7d\x7d") := by
  obtain ⟨c, cs, hdata⟩ : ∃ c cs, id.data = c :: cs := by
    cases hd : id.data with
    | nil =>
      exfalso
      apply hne
      cases id
      simp at hd
      rw [hd]
    | cons c cs => exact ⟨c, cs, rfl⟩
  have hfull : ("\x7b\x7b " ++ id ++ ".output \x7d\x7d").data =
      '{' :: '{' :: ' ' :: (id.data ++
        ('.' :: 'o' :: 'u' :: 't' :: 'p' :: 'u' :: 't' :: ' ' :: '}' :: '}' :: [])) := by
    rw [String.data_append, String.data_append]
    rfl
  unfold replaceTemplates
  rw [hfull]
  have hlen : ('{' :: '{' :: ' ' :: (id.data ++
      ('.' :: 'o' :: 'u' :: 't' :: 'p' :: 'u' :: 't' :: ' ' :: '}' :: '}' :: []))).length =
      (('{' :: ' ' :: (id.data ++
        ('.' :: 'o' :: 'u' :: 't' :: 'p' :: 'u' :: 't' :: ' ' :: '}' :: '}' :: []))).length) + 1 := by
    simp
  rw [hlen]
  have hscan : scanTemplates ctx (('{' :: ' ' :: (id.data ++
      ('.' :: 'o' :: 'u' :: 't' :: 'p' :: 'u' :: 't' :: ' ' :: '}' :: '}' :: []))).length + 1)
      ('{' :: '{' :: ' ' :: (id.data ++
        ('.' :: 'o' :: 'u' :: 't' :: 'p' :: 'u' :: 't' :: ' ' :: '}' :: '}' :: []))) =
      (resolveTemplateRef ctx id ⟨'{' :: '{' :: ' ' :: (id.data ++
        ('.' :: 'o' :: 'u' :: 't' :: 'p' :: 'u' :: 't' :: ' ' :: '}' :: '}' :: []))⟩).data ++
        scanTemplates ctx
          (('{' :: ' ' :: (id.data ++
            ('.' :: 'o' :: 'u' :: 't' :: 'p' :: 'u' :: 't' :: ' ' :: '}' :: '}' :: []))).length)
          [] := by
    simp only [scanTemplates, matchTemplateAt_single id c cs hdata hident]
  rw [hscan, scanTemplates_nil, List.append_nil]
  have hmk : (⟨'{' :: '{' :: ' ' :: (id.data ++
      ('.' :: 'o' :: 'u' :: 't' :: 'p' :: 'u' :: 't' :: ' ' :: '}' :: '}' :: []))⟩ : String) =
      "\x7b\x7b " ++ id ++ ".output \x7d\x7d" := by
    rw [← hfull]
  rw [hmk]
  rfl

set_option maxHeartbeats 1000000 in
/-- End-to-end template pipeline on the two-node workflow: whatever the
first command prints, the second node executes with the first node's
stored output (echo lines removed, trimmed) substituted for its template
reference. -/
theorem executeWorkflow_template_pipeline (exec : ShellExec) (oA : String)
    (hA : exec "ca" "/" = { output := oA, exitCode := 0 }) :
    (executeWorkflow exec c8Nodes c8Edges none "/" none 4).map (·.results) =
      some [c8ResA oA,
        executeNode exec (c8SubNode (cleanOutput ("$ ca\n" ++ oA))) "/" "/"] := by
  have hrepl : replaceTemplates "\x7b\x7b nodeA.output \x7d\x7d"
      { outputs := [("nodeA", cleanOutput ("$ ca\n" ++ oA))],
        nodeLabels := buildLabels c8Nodes } = cleanOutput ("$ ca\n" ++ oA) := by
    rw [show ("\x7b\x7b nodeA.output \x7d\x7d" : String) =
      "\x7b\x7b " ++ "nodeA" ++ ".output \x7d\x7d" from rfl]
    rw [replaceTemplates_single _ "nodeA" (by decide) (by decide)]
    rfl
  have h0 : ¬(("$ ca\n" ++ oA) = "") := by
    intro h
    have := congrArg String.data h
    simp [String.data_append] at this
  have hgA : mapGet (buildNodeMap c8Nodes) "nodeA" = some c8NodeA := by decide
  have hgB : mapGet (buildNodeMap c8Nodes) "nodeB" = some c8NodeB := by decide
  have hadjA : mapGet (buildAdjacencyMap c8Edges) "nodeA" = some ["nodeB"] := by decide
  have hadjB : mapGet (buildAdjacencyMap c8Edges) "nodeB" = none := by decide
  have hprocA : processNodeTemplates c8NodeA
      { outputs := [], nodeLabels := buildLabels c8Nodes } = c8NodeA := by decide
  have htrim : ¬(jsTrim "ca" = "") := by decide
  have hexecA : executeNode exec c8NodeA "/" "/" = c8ResA oA := by
    have hstep : executeNode exec c8NodeA "/" "/" =
        runShellCommands exec "nodeA" "/" ["ca"] [] 0 := rfl
    rw [hstep]
    simp only [runShellCommands]
    rw [if_neg htrim, hA]
    rfl
  have hprocB : processNodeTemplates c8NodeB
      { outputs := [("nodeA", cleanOutput ("$ ca\n" ++ oA))],
        nodeLabels := buildLabels c8Nodes } =
      c8SubNode (cleanOutput ("$ ca\n" ++ oA)) := by
    simp only [processNodeTemplates, c8NodeB, c8SubNode, Option.map_some', Option.map_none',
      List.map_cons, List.map_nil, hrepl]
  simp only [executeWorkflow]
  rw [show startNodesOf c8Nodes c8Edges none = some ["nodeA"] from by decide]
  simp only [Option.map_some]
  simp only [runLoop, List.contains, List.elem, mapSet, List.any_nil, List.any_cons,
    Bool.false_eq_true, if_false, List.append_nil, List.nil_append, jsOr, c8ResA,
    hgA, hgB, hadjA, hadjB, hprocA, hprocB, hexecA, h0]
  simp only [show (("nodeB" : String) == "nodeA") = false from rfl,
    show (("nodeA" : String) == "nodeB") = false from rfl, Bool.or_false,
    Bool.false_eq_true, if_false, if_true, ite_true, ite_false,
    show ¬(NodeStatus.completed = NodeStatus.failed) from by decide]
  by_cases hB : (executeNode exec (c8SubNode (cleanOutput ("$ ca\n" ++ oA))) "/" "/").status
      = NodeStatus.failed
  · simp only [hB, if_true, ite_true]
    rfl
  · simp only [hB, if_false, ite_false]
    rfl

/-- C8: a template reference in a node parameter resolves first as a node
id against already-produced outputs, then as a label (first normalized
match in insertion order with an output), and stays verbatim when neither
resolves; end-to-end, a downstream node executes with the upstream node's
stored output (trimmed, command-echo lines removed) substituted for the
reference.  (Specification sections 4.5 step 3 and 8.) -/
theorem claim_C8_template_substitution :
    (∀ (ctx : ExecutionContext) (id : String), id ≠ "" →
      (∀ ch ∈ id.data, isIdentChar ch = true) →
      replaceTemplates ("\x7b\x7b " ++ id ++ ".output \x7d\x7d") ctx =
        (match mapGet ctx.outputs id with
         | some v => v
         | none =>
           match lookupLabelOutput ctx.outputs id ctx.nodeLabels with
           | some v => v
           | none => "\x7b\x7b " ++ id ++ ".output \x7d\x7d")) ∧
    (∀ (exec : ShellExec) (oA : String),
      exec "ca" "/" = { output := oA, exitCode := 0 } →
      (executeWorkflow exec c8Nodes c8Edges none "/" none 4).map (·.results) =
        some [c8ResA oA,
          executeNode exec (c8SubNode (cleanOutput ("$ ca\n" ++ oA))) "/" "/"]) :=
  ⟨replaceTemplates_single, executeWorkflow_template_pipeline⟩

/-- Witness for C8: a reference to a produced node id substitutes its
output, one matching only a normalized label substitutes that node's
output, and one matching nothing stays verbatim. -/
theorem claim_C8_witness :
    ("n1" : String) ≠ "" ∧
    (∀ ch ∈ ("n1" : String).data, isIdentChar ch = true) ∧
    replaceTemplates "\x7b\x7b n1.output \x7d\x7d"
      { outputs := [("n1", "V")], nodeLabels := [("n1", "My Step")] } = "V" ∧
    replaceTemplates "\x7b\x7b my_step.output \x7d\x7d"
      { outputs := [("n1", "V")], nodeLabels := [("n1", "My Step")] } = "V" ∧
    replaceTemplates "\x7b\x7b missing.output \x7d\x7d"
      { outputs := [("n1", "V")], nodeLabels := [("n1", "My Step")] } =
      "\x7b\x7b missing.output \x7d\x7d" := by
  refine ⟨by decide, by decide, ?_, ?_, ?_⟩
  · have h := claim_C8_template_substitution.1
      { outputs := [("n1", "V")], nodeLabels := [("n1", "My Step")] } "n1"
      (by decide) (by decide)
    rw [show ("\x7b\x7b n1.output \x7d\x7d" : String) =
      "\x7b\x7b " ++ "n1" ++ ".output \x7d\x7d" from rfl]
    exact h.trans (by decide)
  · have h := claim_C8_template_substitution.1
      { outputs := [("n1", "V")], nodeLabels := [("n1", "My Step")] } "my_step"
      (by decide) (by decide)
    rw [show ("\x7b\x7b my_step.output \x7d\x7d" : String) =
      "\x7b\x7b " ++ "my_step" ++ ".output \x7d\x7d" from rfl]
    exact h.trans (by decide)
  · have h := claim_C8_template_substitution.1
      { outputs := [("n1", "V")], nodeLabels := [("n1", "My Step")] } "missing"
      (by decide) (by decide)
    rw [show ("\x7b\x7b missing.output \x7d\x7d" : String) =
      "\x7b\x7b " ++ "missing" ++ ".output \x7d\x7d" from rfl]
    exact h.trans (by decide)

end Robomesh
